import Mathlib

/-!
Verification of the email_extractor repository against its specification.

The Python sources are shallowly embedded: Python strings become `List Char`,
pure functions become Lean functions, regular expressions with a fixed shape
are embedded as executable character-list scanners, and external collaborators
(network, DOM parsing, regex engines applied to arbitrary patterns, robots.txt)
are abstracted as oracle parameters.  Python `re` semantics that matter here
are modelled explicitly; in particular a trailing `$` anchor in a Python
pattern also matches just before a final newline, which the `py`-prefixed
helpers reproduce.
-/

namespace EmailExtractor

/-- Python strings are modelled as lists of characters. -/
abbrev Str := List Char

/-- Number of occurrences of a character, mirroring Python `s.count(c)`. -/
def countChar (a : Char) : Str → Nat
  | [] => 0
  | c :: rest => (if c == a then 1 else 0) + countChar a rest

/-- ASCII letter test, the `[a-zA-Z]` character class. -/
def isAsciiAlpha (c : Char) : Bool :=
  ('a' ≤ c && c ≤ 'z') || ('A' ≤ c && c ≤ 'Z')

/-- ASCII digit test, the `[0-9]` character class. -/
def isAsciiDigit (c : Char) : Bool :=
  '0' ≤ c && c ≤ '9'

/-- The local-part character class `[a-zA-Z0-9._%+-]` of the anchored email
pattern used by `_is_valid_email_format_enhanced`. -/
def inLocalClass (c : Char) : Bool :=
  isAsciiAlpha c || isAsciiDigit c || c == '.' || c == '_' || c == '%' || c == '+' || c == '-'

/-- The domain character class `[a-zA-Z0-9.-]` of the anchored email pattern. -/
def inDomainClass (c : Char) : Bool :=
  isAsciiAlpha c || isAsciiDigit c || c == '.' || c == '-'

/-- Everything before the first `@`, i.e. `email.split('@')[0]` when the
string contains exactly one `@`. -/
def localPart (e : Str) : Str := e.takeWhile (fun c => c != '@')

/-- Everything after the first `@`, i.e. `email.split('@')[1]` when the
string contains exactly one `@`. -/
def domainPart (e : Str) : Str := (e.dropWhile (fun c => c != '@')).drop 1

/-- Matcher for the part of the anchored pattern after the `@`, namely
`[a-zA-Z0-9.-]+\.[a-zA-Z]{2,}` required to span the whole rest of the string.
Because the trailing `[a-zA-Z]{2,}` must run to the end of the string and a
dot is not a letter, the only possible split uses the maximal alphabetic
suffix as the TLD part, with the character just before it required to be a
dot and a non-empty domain-class run before that. -/
def domainTailMatch (rest : Str) : Bool :=
  let rev := rest.reverse
  let tld := rev.takeWhile isAsciiAlpha
  if tld.length < 2 then false
  else
    match rev.drop tld.length with
    | '.' :: pre => !pre.isEmpty && pre.all inDomainClass
    | _ => false

/-- Full-string matcher for `[a-zA-Z0-9._%+-]+@[a-zA-Z0-9.-]+\.[a-zA-Z]{2,}`
(no `$`-newline allowance).  Since neither character class contains `@`, a
match must use the first `@` of the string as the separator. -/
def anchoredEmailCore (e : Str) : Bool :=
  match e.dropWhile (fun c => c != '@') with
  | '@' :: rest => !(localPart e).isEmpty && (localPart e).all inLocalClass && domainTailMatch rest
  | _ => false

/-- Python `re.match` of the anchored pattern
`^[a-zA-Z0-9._%+-]+@[a-zA-Z0-9.-]+\.[a-zA-Z]{2,}$`: the `$` anchor also
matches just before a single trailing newline. -/
def pyAnchoredMatch (e : Str) : Bool :=
  anchoredEmailCore e || (e.getLast? == some '\n' && anchoredEmailCore e.dropLast)

/-- Does the string contain the two-character sequence `a` `b`?  Embeds the
Python searches for patterns such as `@\.`, `\.@` and `\.{2,}`. -/
def hasPair (a b : Char) : Str → Bool
  | [] => false
  | [_] => false
  | c :: d :: rest => (c == a && d == b) || hasPair a b (d :: rest)

/-- Python `re.search(c + '$', s)`: the char occurs at the very end, or just
before a single trailing newline. -/
def pyEndsChar (a : Char) (s : Str) : Bool :=
  s.getLast? == some a || (s.getLast? == some '\n' && s.dropLast.getLast? == some a)

/-- Python `s.split(sep)` for a single-character separator: keeps empty
segments, and splitting the empty string yields one empty segment. -/
def splitOnChar (sep : Char) : Str → List Str
  | [] => [[]]
  | c :: rest =>
    if c == sep then [] :: splitOnChar sep rest
    else
      match splitOnChar sep rest with
      | [] => [[c]]
      | s :: ss => (c :: s) :: ss

/-- The checks of the `invalid_patterns` loop in the extractor's
`_is_valid_email_format_enhanced` (email_extractor.py lines 214-225), in
source order: consecutive dots, leading/trailing dot, dot adjacent to `@`,
leading and trailing dash/underscore.  The trailing checks use Python `$`
search semantics. -/
def enhancedInvalidChecks : List (Str → Bool) :=
  [ fun e => hasPair '.' '.' e
  , fun e => e.head? == some '.' || pyEndsChar '.' e
  , fun e => hasPair '@' '.' e
  , fun e => hasPair '.' '@' e
  , fun e => e.head? == some '-' || e.head? == some '_'
  , fun e => pyEndsChar '-' e || pyEndsChar '_' e ]

/-- EmailExtractor._is_valid_email_format_enhanced
(src/extractors/email_extractor.py lines 179-236). -/
def is_valid_email_format_enhanced (e : Str) : Bool :=
  if e.isEmpty || decide (e.length < 5) || decide (254 < e.length) then false
  else if countChar '@' e != 1 then false
  else if (localPart e).isEmpty || (domainPart e).isEmpty then false
  else if decide (64 < (localPart e).length) || decide (255 < (domainPart e).length) then false
  else if !(domainPart e).contains '.' then false
  else if !pyAnchoredMatch e then false
  else if enhancedInvalidChecks.any (fun chk => chk e) then false
  else if decide ((splitOnChar '.' (domainPart e)).length < 2) then false
  else if decide (((splitOnChar '.' (domainPart e)).getLastD []).length < 2) then false
  else true

/-- WebsiteCrawler._is_valid_email_format_enhanced
(src/crawler/website_crawler.py lines 1189-1208).  Unlike the extractor's
copy it has no local/domain length caps, no invalid-pattern loop and no
last-label check: after the basic length, `@`-count, non-emptiness and
domain-dot checks it returns the bare anchored-pattern match. -/
def crawler_is_valid_email_format_enhanced (e : Str) : Bool :=
  if e.isEmpty || decide (e.length < 5) || decide (254 < e.length) then false
  else if countChar '@' e != 1 then false
  else if (localPart e).isEmpty || (domainPart e).isEmpty || !(domainPart e).contains '.' then false
  else pyAnchoredMatch e

/-- The validity gate exactly as claim C1 states it: length 5-254, exactly
one `@`, non-empty parts, local ≤64 and domain ≤255, domain contains a dot
and its final label is at least 2 alphabetic characters, no consecutive
dots, no leading/trailing dot, no dot adjacent to `@`, no leading/trailing
hyphen or underscore. -/
def claimedValidityGate (e : Str) : Bool :=
  decide (5 ≤ e.length) && decide (e.length ≤ 254) &&
  (countChar '@' e == 1) &&
  !(localPart e).isEmpty && !(domainPart e).isEmpty &&
  decide ((localPart e).length ≤ 64) && decide ((domainPart e).length ≤ 255) &&
  (domainPart e).contains '.' &&
  decide (2 ≤ ((splitOnChar '.' (domainPart e)).getLastD []).length) &&
  ((splitOnChar '.' (domainPart e)).getLastD []).all isAsciiAlpha &&
  !hasPair '.' '.' e &&
  !(e.head? == some '.') && !(e.getLast? == some '.') &&
  !hasPair '@' '.' e && !hasPair '.' '@' e &&
  !(e.head? == some '-') && !(e.head? == some '_') &&
  !(e.getLast? == some '-') && !(e.getLast? == some '_')

/-- The amended gate for the extractor's copy: the claim's conditions with
the anchored-pattern match added, the final-label condition weakened to a
bare length bound (the code does not require the label to be alphabetic;
letters are only forced through the pattern), and the trailing-character
checks interpreted with Python `$` semantics. -/
def amendedGateExtractor (e : Str) : Bool :=
  decide (5 ≤ e.length) && decide (e.length ≤ 254) &&
  (countChar '@' e == 1) &&
  !(localPart e).isEmpty && !(domainPart e).isEmpty &&
  decide ((localPart e).length ≤ 64) && decide ((domainPart e).length ≤ 255) &&
  (domainPart e).contains '.' &&
  pyAnchoredMatch e &&
  !hasPair '.' '.' e &&
  !(e.head? == some '.') && !pyEndsChar '.' e &&
  !hasPair '@' '.' e && !hasPair '.' '@' e &&
  !(e.head? == some '-') && !(e.head? == some '_') &&
  !pyEndsChar '-' e && !pyEndsChar '_' e &&
  decide (2 ≤ ((splitOnChar '.' (domainPart e)).getLastD []).length)

/-- The amended gate for the crawler's copy: only the length window, the
`@` count, non-empty parts, a dot in the domain, and the anchored-pattern
match. -/
def amendedGateCrawler (e : Str) : Bool :=
  decide (5 ≤ e.length) && decide (e.length ≤ 254) &&
  (countChar '@' e == 1) &&
  !(localPart e).isEmpty && !(domainPart e).isEmpty &&
  (domainPart e).contains '.' &&
  pyAnchoredMatch e

end EmailExtractor

namespace EmailExtractor

lemma splitOnChar_ne_nil (sep : Char) (s : Str) : splitOnChar sep s ≠ [] := by
  cases s with
  | nil => simp [splitOnChar]
  | cons c rest =>
    simp only [splitOnChar]
    split
    · exact List.cons_ne_nil _ _
    · split <;> exact List.cons_ne_nil _ _

lemma two_le_splitOnChar_length : ∀ {s : Str}, '.' ∈ s →
    2 ≤ (splitOnChar '.' s).length := by
  intro s h
  induction s with
  | nil => simp at h
  | cons c rest ih =>
    rcases List.mem_cons.mp h with h | h
    · have h1 : splitOnChar '.' rest ≠ [] := splitOnChar_ne_nil _ _
      have h2 : 1 ≤ (splitOnChar '.' rest).length := List.length_pos.mpr h1
      simp only [splitOnChar, ← h, beq_self_eq_true, if_true, List.length_cons]
      omega
    · have h2 := ih h
      by_cases hc : c = '.'
      · have h1 : splitOnChar '.' rest ≠ [] := splitOnChar_ne_nil _ _
        have h3 : 1 ≤ (splitOnChar '.' rest).length := List.length_pos.mpr h1
        simp only [splitOnChar, hc, beq_self_eq_true, if_true, List.length_cons]
        omega
      · have hcb : (c == '.') = false := by simpa using hc
        simp only [splitOnChar, hcb, if_false]
        cases heq : splitOnChar '.' rest with
        | nil => exact absurd heq (splitOnChar_ne_nil _ _)
        | cons s ss =>
          rw [heq] at h2
          simpa using h2

set_option maxHeartbeats 2000000 in
lemma extractorGate_eq_amended (e : Str) :
    is_valid_email_format_enhanced e = amendedGateExtractor e := by
  unfold is_valid_email_format_enhanced amendedGateExtractor enhancedInvalidChecks
  repeat' split
  all_goals try (simp_all [List.any_cons, List.any_nil]; done)
  all_goals try (simp_all [List.any_cons, List.any_nil]; omega)
  all_goals simp_all [List.any_cons, List.any_nil]
  · intro h5 h254
    exfalso
    rcases ‹(e = [] ∨ e.length < 5) ∨ 254 < e.length› with (h | h) | h
    · subst h; simp at h5
    · omega
    · omega
  · intro hl hd
    exfalso
    tauto
  · intro h1 h2 h3 h4 h5 h6 h7 h8 h9
    simp_all
  · have hdotmem : '.' ∈ domainPart e := by assumption
    exact absurd (two_le_splitOnChar_length hdotmem) (by omega)

set_option maxHeartbeats 1000000 in
lemma crawlerGate_eq_amended (e : Str) :
    crawler_is_valid_email_format_enhanced e = amendedGateCrawler e := by
  unfold crawler_is_valid_email_format_enhanced amendedGateCrawler
  repeat' split
  all_goals try (simp_all; done)
  all_goals simp_all
  · intro h5 h254
    exfalso
    rcases ‹(e = [] ∨ e.length < 5) ∨ 254 < e.length› with (h | h) | h
    · subst h; simp at h5
    · omega
    · omega
  · intro hl hd hdot
    exfalso
    tauto

/-- Claim C1, counterexample.  The claim states that
`_is_valid_email_format_enhanced` accepts a string if and only if the listed
conditions hold.  It fails in both directions on concrete inputs: the
extractor's copy rejects `a!b@cd.com` although every listed condition holds
(the anchored pattern additionally restricts the local part's characters),
and the crawler's copy accepts `a..b@cd.com` although the listed conditions
forbid consecutive dots (that copy never runs the invalid-pattern checks). -/
theorem claim_C1_counterexample :
    is_valid_email_format_enhanced ("a!b@cd.com".toList) = false ∧
    claimedValidityGate ("a!b@cd.com".toList) = true ∧
    crawler_is_valid_email_format_enhanced ("a..b@cd.com".toList) = true ∧
    claimedValidityGate ("a..b@cd.com".toList) = false := by
  refine ⟨?_, ?_, ?_, ?_⟩ <;> decide

/-- Claim C1, amended.  The extractor's `_is_valid_email_format_enhanced`
accepts exactly the strings satisfying the claim's conditions together with
the anchored-pattern match `^[a-zA-Z0-9._%+-]+@[a-zA-Z0-9.-]+\.[a-zA-Z]{2,}$`,
with the final-label condition weakened to a bare length bound and the
trailing-character checks read with Python `$` semantics; the crawler's copy
checks only the length window, the `@` count, non-empty parts, a dot in the
domain, and the anchored pattern. -/
theorem claim_C1_gate_amended :
    (∀ e : Str, is_valid_email_format_enhanced e = amendedGateExtractor e) ∧
    (∀ e : Str, crawler_is_valid_email_format_enhanced e = amendedGateCrawler e) :=
  ⟨extractorGate_eq_amended, crawlerGate_eq_amended⟩

end EmailExtractor

namespace EmailExtractor

/-- Python `str.lower()` restricted to ASCII, applied characterwise. -/
def toLowerStr (s : Str) : Str := s.map Char.toLower

/-- The six ASCII characters Python `str.strip()` removes. -/
def isPyWhitespace (c : Char) : Bool :=
  c == ' ' || c == '\t' || c == '\n' || c == '\r' || c == '\x0b' || c == '\x0c'

/-- Python `s.strip()`. -/
def pyStrip (s : Str) : Str :=
  ((s.dropWhile isPyWhitespace).reverse.dropWhile isPyWhitespace).reverse

/-- The checks of the `invalid_patterns` loop in `_is_valid_email_format`
(email_extractor.py lines 649-654), in source order.  The second entry
embeds the regex `^\.|\.`: its second alternative has no anchor, so the
search fires on any string containing a dot anywhere. -/
def basicInvalidChecks : List (Str → Bool) :=
  [ fun e => hasPair '.' '.' e
  , fun e => e.head? == some '.' || e.contains '.'
  , fun e => hasPair '@' '.' e
  , fun e => hasPair '.' '@' e ]

/-- EmailExtractor._is_valid_email_format
(src/extractors/email_extractor.py lines 626-660). -/
def is_valid_email_format (e : Str) : Bool :=
  if e.isEmpty || decide (e.length < 5) then false
  else if countChar '@' e != 1 then false
  else if (localPart e).isEmpty || (domainPart e).isEmpty then false
  else if decide (64 < (localPart e).length) || decide (255 < (domainPart e).length) then false
  else if !(domainPart e).contains '.' then false
  else if basicInvalidChecks.any (fun chk => chk e) then false
  else true

/-- One raw detection of an email together with its discovery method and
intrinsic confidence. -/
structure EmailCandidate where
  email : Str
  method : String
  confidence : Rat
deriving Repr, DecidableEq

/-- Characters of the domain part are characters of the whole string. -/
lemma mem_of_mem_domainPart {c : Char} {e : Str} (h : c ∈ domainPart e) : c ∈ e := by
  have h1 : c ∈ e.dropWhile (fun c => c != '@') := (List.drop_sublist _ _).subset h
  exact (List.dropWhile_sublist _).subset h1

/-- `_is_valid_email_format` rejects every string: it requires a dot in the
domain, but its second invalid pattern `^\.|\.` fires on any string
containing a dot. -/
lemma is_valid_email_format_false (e : Str) : is_valid_email_format e = false := by
  unfold is_valid_email_format basicInvalidChecks
  repeat' split
  all_goals try rfl
  exfalso
  rename_i hdom hany
  simp only [Bool.not_eq_true', Bool.not_eq_false] at hdom
  simp only [List.any_cons, List.any_nil, Bool.or_eq_true, Bool.or_false] at hany
  apply hany
  right; left; right
  have : '.' ∈ e := mem_of_mem_domainPart (by simpa using hdom)
  simpa using this

/-- EmailExtractor._extract_standard_emails (lines 322-346): the regex scan
over the cleaned HTML text is abstracted as the list of raw match strings;
each is lower-cased, stripped and admitted only if `_is_valid_email_format`
accepts it. -/
def extract_standard_emails (rawMatches : List Str) : List EmailCandidate :=
  rawMatches.filterMap (fun m =>
    let email := pyStrip (toLowerStr m)
    if is_valid_email_format email then
      some { email := email, method := "standard_regex", confidence := 0.9 }
    else none)

/-- EmailExtractor._extract_mailto_links (lines 348-389): href parsing,
query stripping, comma splitting and percent-decoding are abstracted as the
list of resulting address strings; each is lower-cased and admitted only if
`_is_valid_email_format` accepts it. -/
def extract_mailto_links (addresses : List Str) : List EmailCandidate :=
  addresses.filterMap (fun a =>
    let email := toLowerStr a
    if is_valid_email_format email then
      some { email := email, method := "mailto_link", confidence := 0.95 }
    else none)

/-- EmailExtractor._extract_css_hidden_emails (lines 441-470): for each
hidden element's text, `_extract_standard_emails` is run and the produced
candidates are re-tagged as css_hidden at confidence 0.7.  Each element's
regex matches are abstracted as one inner list. -/
def extract_css_hidden_emails (hiddenTexts : List (List Str)) : List EmailCandidate :=
  hiddenTexts.foldr
    (fun raws acc =>
      ((extract_standard_emails raws).map
        (fun c => { c with method := "css_hidden", confidence := 0.7 })) ++ acc)
    []

/-- EmailExtractor._extract_obfuscated_emails (lines 391-439): deobfuscated
reassembled addresses are admitted only through `_is_valid_email_format`,
then the css-hidden candidates are appended. -/
def extract_obfuscated_emails (deobfuscated : List Str) (hiddenTexts : List (List Str)) :
    List EmailCandidate :=
  (deobfuscated.filterMap (fun d =>
    let email := toLowerStr d
    if is_valid_email_format email then
      some { email := email, method := "deobfuscation", confidence := 0.85 }
    else none))
  ++ extract_css_hidden_emails hiddenTexts

/-- EmailExtractor._extract_js_emails (lines 500-541): the script-text regex
matches (concatenated or direct) are abstracted as the list of assembled
address strings, each admitted only through `_is_valid_email_format`. -/
def extract_js_emails (jsMatches : List Str) : List EmailCandidate :=
  jsMatches.filterMap (fun m =>
    let email := toLowerStr m
    if is_valid_email_format email then
      some { email := email, method := "javascript", confidence := 0.75 }
    else none)

lemma extract_standard_emails_nil (raws : List Str) : extract_standard_emails raws = [] := by
  unfold extract_standard_emails
  rw [List.filterMap_eq_nil_iff]
  intro a _
  simp [is_valid_email_format_false]

lemma extract_css_hidden_emails_nil (hidden : List (List Str)) :
    extract_css_hidden_emails hidden = [] := by
  unfold extract_css_hidden_emails
  induction hidden with
  | nil => rfl
  | cons h t ih => simp [extract_standard_emails_nil, ih]

/-- Claim C10: `_is_valid_email_format` returns false on every input (its
invalid-pattern list contains `^\.|\.` which matches any string containing a
dot, while the domain is required to contain one), so every extraction
strategy gated solely by it produces an empty candidate list. -/
theorem claim_C10_basic_validator_rejects_everything :
    (∀ e : Str, is_valid_email_format e = false) ∧
    (∀ raws : List Str, extract_standard_emails raws = []) ∧
    (∀ addrs : List Str, extract_mailto_links addrs = []) ∧
    (∀ (deob : List Str) (hidden : List (List Str)),
      extract_obfuscated_emails deob hidden = []) ∧
    (∀ js : List Str, extract_js_emails js = []) ∧
    (∀ hidden : List (List Str), extract_css_hidden_emails hidden = []) := by
  refine ⟨is_valid_email_format_false, extract_standard_emails_nil, ?_, ?_, ?_,
    extract_css_hidden_emails_nil⟩
  · intro addrs
    unfold extract_mailto_links
    rw [List.filterMap_eq_nil_iff]
    intro a _
    simp [is_valid_email_format_false]
  · intro deob hidden
    unfold extract_obfuscated_emails
    rw [extract_css_hidden_emails_nil, List.append_nil, List.filterMap_eq_nil_iff]
    intro a _
    simp [is_valid_email_format_false]
  · intro js
    unfold extract_js_emails
    rw [List.filterMap_eq_nil_iff]
    intro a _
    simp [is_valid_email_format_false]

end EmailExtractor

namespace EmailExtractor

/-- Parsed URL as returned by `urlparse`, restricted to the fields
`_should_crawl_url` reads: network location, lower-cased later path, and the
`parse_qs` view of the query string (parameter name to list of values). -/
structure ParsedUrl where
  netloc : String
  path : String
  query : List (String × List String)

/-- The fields of `Config` read by the URL admission policy. -/
structure PolicyConfig where
  maxDepth : Nat
  allowedDomains : List String
  excludedDomains : List String
  excludedExtensions : List String

/-- WebsiteCrawler._can_fetch (website_crawler.py lines 125-134).  The
robots parser lookup and query is an external collaborator modelled as an
oracle that may throw; a missing robots.txt is the oracle returning
`.ok true`, and a thrown exception is caught and treated as allow. -/
def can_fetch (robotsOracle : String → Except String Bool) (url : String) : Bool :=
  match robotsOracle url with
  | .ok b => b
  | .error _ => true

/-- Python `int()` on a decimal string: surrounding whitespace is ignored,
then an optional sign and a non-empty digit run; anything else raises
(`none`). -/
def pyInt (s : String) : Option Int :=
  let digitsVal : Str → Option Nat := fun ds =>
    if !ds.isEmpty && ds.all isAsciiDigit then
      some (ds.foldl (fun acc c => acc * 10 + (c.toNat - 48)) 0)
    else none
  match pyStrip s.data with
  | '+' :: ds => (digitsVal ds).map (fun n => (n : Int))
  | '-' :: ds => (digitsVal ds).map (fun n => -(n : Int))
  | ds => (digitsVal ds).map (fun n => (n : Int))

/-- WebsiteCrawler._should_crawl_url (website_crawler.py lines 136-187).
`urlparse` is an oracle that may throw; an exception escaping the body is
caught by the enclosing try/except, which returns False.  Inside the
pagination guard, a failing `int()` is caught by the inner
`except (ValueError, IndexError): pass`, after which the function falls
through to `return True`. -/
def should_crawl_url (cfg : PolicyConfig)
    (parse : String → Except String ParsedUrl)
    (robotsOracle : String → Except String Bool)
    (visited queued : List String)
    (url : String) (baseDomain : String) (currentDepth : Nat) : Bool :=
  match parse url with
  | .error _ => false
  | .ok parsed =>
    if cfg.maxDepth ≤ currentDepth then false
    else if visited.contains url || queued.contains url then false
    else if !cfg.allowedDomains.isEmpty && !cfg.allowedDomains.contains parsed.netloc then false
    else if !cfg.excludedDomains.isEmpty && cfg.excludedDomains.contains parsed.netloc then false
    else if parsed.netloc != baseDomain then false
    else if cfg.excludedExtensions.any (fun ext => parsed.path.toLower.endsWith ext) then false
    else if !can_fetch robotsOracle url then false
    else if parsed.query.isEmpty then true
    else
      match parsed.query.lookup "page" with
      | none => true
      | some vals =>
        match vals.head? with
        | none => true
        | some v =>
          match pyInt v with
          | none => true
          | some n => if 100 < n then false else true

/-- The stateless residue of the admission policy: everything
`_should_crawl_url` checks apart from the depth limit and the
visited/queued membership tests. -/
def statelessPolicy (cfg : PolicyConfig)
    (parse : String → Except String ParsedUrl)
    (robotsOracle : String → Except String Bool)
    (baseDomain : String) (url : String) : Bool :=
  match parse url with
  | .error _ => false
  | .ok parsed =>
    if !cfg.allowedDomains.isEmpty && !cfg.allowedDomains.contains parsed.netloc then false
    else if !cfg.excludedDomains.isEmpty && cfg.excludedDomains.contains parsed.netloc then false
    else if parsed.netloc != baseDomain then false
    else if cfg.excludedExtensions.any (fun ext => parsed.path.toLower.endsWith ext) then false
    else if !can_fetch robotsOracle url then false
    else if parsed.query.isEmpty then true
    else
      match parsed.query.lookup "page" with
      | none => true
      | some vals =>
        match vals.head? with
        | none => true
        | some v =>
          match pyInt v with
          | none => true
          | some n => if 100 < n then false else true

/-- The crawl orchestration parameters: page and depth budgets plus oracles
for the collaborators of the loop.  `policy` is the stateless residue of the
admission policy (see `should_crawl_url_eq_shouldCrawl`); `fetchOk` says
whether `_crawl_single_page` produced a CrawlResult for a URL; `links` is
the outcome of the link-harvest refetch, `none` when that refetch failed. -/
structure CrawlCfg where
  maxDepth : Nat
  maxPages : Nat
  policy : String → Bool
  fetchOk : String → Bool
  links : String → Option (List String)

/-- The admission check as invoked from the crawl loop: depth bound, then
visited and queued membership, then the stateless policy. -/
def shouldCrawl (maxDepth : Nat) (policy : String → Bool)
    (visited queued : List String) (url : String) (depth : Nat) : Bool :=
  decide (depth < maxDepth) && !visited.contains url && !queued.contains url && policy url

/-- `_should_crawl_url` splits into the structural depth/visited/queued
checks and the stateless residue. -/
lemma should_crawl_url_eq_shouldCrawl (cfg : PolicyConfig)
    (parse : String → Except String ParsedUrl)
    (robotsOracle : String → Except String Bool)
    (visited queued : List String) (url baseDomain : String) (depth : Nat) :
    should_crawl_url cfg parse robotsOracle visited queued url baseDomain depth =
      shouldCrawl cfg.maxDepth (statelessPolicy cfg parse robotsOracle baseDomain)
        visited queued url depth := by
  unfold should_crawl_url shouldCrawl statelessPolicy
  cases hp : parse url with
  | error e => simp
  | ok parsed =>
    by_cases hd : cfg.maxDepth ≤ depth
    · simp [hd, Nat.not_lt.mpr hd]
    · by_cases hv : visited.contains url
      · simp [hd, hv, Nat.not_le.mp hd]
      · by_cases hq : queued.contains url
        · simp [hd, hv, hq, Nat.not_le.mp hd]
        · simp [hd, hv, hq, Nat.not_le.mp hd]

end EmailExtractor

namespace EmailExtractor

/-- Mutable state threaded through one wave: the visited set, the
`next_urls` accumulator, and the log of wave-member fetches (url, depth). -/
structure WaveState where
  visited : List String
  next : List String
  log : List (String × Nat)

/-- Python `set.add` on a list kept duplicate-free in insertion order. -/
def insertSet (l : List String) (x : String) : List String :=
  if l.contains x then l else l ++ [x]

/-- Lines 374-376 of website_crawler.py: filter the harvested links through
the admission check (the queued set is empty during a wave, having been
cleared at wave start) and add the admitted ones to next_urls. -/
def admitLinks (cfg : CrawlCfg) (depth : Nat) (st : WaveState) : List String → WaveState
  | [] => st
  | link :: ls =>
    if shouldCrawl cfg.maxDepth cfg.policy st.visited [] link (depth + 1) then
      admitLinks cfg depth { st with next := insertSet st.next link } ls
    else
      admitLinks cfg depth st ls

/-- Lines 364-376 for one zipped (url, result) pair: the url joins visited
unconditionally; on a successful result below the final allowed depth the
page is refetched for link harvesting and the links filtered in. -/
def visitUrl (st : WaveState) (url : String) : WaveState :=
  { st with visited := insertSet st.visited url }

def processUrl (cfg : CrawlCfg) (depth : Nat) (st : WaveState) (url : String) : WaveState :=
  if cfg.fetchOk url then
    if depth < cfg.maxDepth - 1 then
      match cfg.links url with
      | some ls => admitLinks cfg depth (visitUrl st url) ls
      | none => visitUrl st url
    else visitUrl st url
  else visitUrl st url

/-- The zip loop of lines 364-379 over one batch; the boolean reports
whether the max_pages break fired. -/
def zipLoop (cfg : CrawlCfg) (depth : Nat) : List String → WaveState → WaveState × Bool
  | [], st => (st, false)
  | url :: rest, st =>
    if cfg.maxPages ≤ (processUrl cfg depth st url).visited.length then
      (processUrl cfg depth st url, true)
    else zipLoop cfg depth rest (processUrl cfg depth st url)

/-- One batch (lines 356-379): the whole batch is fetched (logged) before
any of its results are folded in, matching asyncio.gather before the zip
loop. -/
def processBatch (cfg : CrawlCfg) (depth : Nat) (st : WaveState) (batch : List String) :
    WaveState × Bool :=
  zipLoop cfg depth batch { st with log := st.log ++ batch.map (fun u => (u, depth)) }

/-- Chunking of the wave into fetch batches, `range(0, len, batch_size)`.
The fuel argument (instantiated with the list length) only serves
termination; it is never exhausted when the chunk size is positive. -/
def chunksGo (n : Nat) : Nat → List String → List (List String)
  | _, [] => []
  | 0, l => [l]
  | fuel + 1, l => l.take n :: chunksGo n fuel (l.drop n)

/-- The wave split into batches of the given size. -/
def chunks (n : Nat) (l : List String) : List (List String) := chunksGo n l.length l

/-- The batch loop with its two max_pages breaks (lines 378-382). -/
def batchLoop (cfg : CrawlCfg) (depth : Nat) : List (List String) → WaveState → WaveState
  | [], st => st
  | b :: bs, st =>
    if (processBatch cfg depth st b).2 then (processBatch cfg depth st b).1
    else if cfg.maxPages ≤ (processBatch cfg depth st b).1.visited.length then
      (processBatch cfg depth st b).1
    else batchLoop cfg depth bs (processBatch cfg depth st b).1

/-- One wave at the given depth (lines 353-382), with batch size
`min(20, len(current_urls))`. -/
def runWave (cfg : CrawlCfg) (depth : Nat) (visited : List String)
    (current : List String) (log : List (String × Nat)) : WaveState :=
  batchLoop cfg depth (chunks (min 20 current.length) current)
    { visited := visited, next := [], log := log }

/-- Observable outcome of a crawl run: final visited and queued sets, the
log of wave-member fetches, and the (visited, queued) snapshot at the end
of each wave. -/
structure CrawlOut where
  visited : List String
  queued : List String
  log : List (String × Nat)
  trace : List (List String × List String)

/-- The while loop of crawl_website (lines 338-386).  The fuel argument
equals maxDepth minus the current depth, so fuel 0 is exactly the loop's
depth-limit exit; within one iteration the queue is snapshotted and
cleared, truncated to the remaining page budget, processed as one wave,
and next_urls becomes the queue of the next wave. -/
def crawlLoop (cfg : CrawlCfg) : Nat → Nat → List String → List String →
    List (String × Nat) → List (List String × List String) → CrawlOut
  | 0, _, visited, queued, log, trace => ⟨visited, queued, log, trace⟩
  | fuel + 1, depth, visited, queued, log, trace =>
    if queued.isEmpty || cfg.maxPages ≤ visited.length then ⟨visited, queued, log, trace⟩
    else if cfg.maxPages - visited.length = 0 then ⟨visited, queued, log, trace⟩
    else
      crawlLoop cfg fuel (depth + 1)
        (runWave cfg depth visited (queued.take (cfg.maxPages - visited.length)) log).visited
        (runWave cfg depth visited (queued.take (cfg.maxPages - visited.length)) log).next
        (runWave cfg depth visited (queued.take (cfg.maxPages - visited.length)) log).log
        (trace ++
          [((runWave cfg depth visited (queued.take (cfg.maxPages - visited.length)) log).visited,
            (runWave cfg depth visited (queued.take (cfg.maxPages - visited.length)) log).next)])

/-- WebsiteCrawler.crawl_website (lines 326-393), from a fresh frontier
with the start URL queued. -/
def crawlWebsite (cfg : CrawlCfg) (startUrl : String) : CrawlOut :=
  crawlLoop cfg cfg.maxDepth 0 [] [startUrl] [] []

/-- How often a URL was fetched as a wave member. -/
def fetchCount (u : String) (log : List (String × Nat)) : Nat :=
  (log.map Prod.fst).count u

end EmailExtractor

namespace EmailExtractor

lemma insertSet_length_le (l : List String) (x : String) :
    (insertSet l x).length ≤ l.length + 1 := by
  unfold insertSet; split
  · omega
  · simp

lemma insertSet_subset (l : List String) (x : String) : l ⊆ insertSet l x := by
  unfold insertSet; split
  · exact fun a h => h
  · exact List.subset_append_left _ _

lemma mem_insertSet_self (l : List String) (x : String) : x ∈ insertSet l x := by
  unfold insertSet; split
  · rename_i h; simpa using h
  · simp

lemma insertSet_nodup {l : List String} (x : String) (h : l.Nodup) :
    (insertSet l x).Nodup := by
  unfold insertSet; split
  · exact h
  · rename_i hc
    have hx : x ∉ l := by simpa using hc
    simp [List.nodup_append, h, hx]

lemma admitLinks_visited (cfg : CrawlCfg) (d : Nat) (st : WaveState) (ls : List String) :
    (admitLinks cfg d st ls).visited = st.visited := by
  induction ls generalizing st with
  | nil => rfl
  | cons l ls ih =>
    unfold admitLinks; split
    · exact ih _
    · exact ih _

lemma admitLinks_log (cfg : CrawlCfg) (d : Nat) (st : WaveState) (ls : List String) :
    (admitLinks cfg d st ls).log = st.log := by
  induction ls generalizing st with
  | nil => rfl
  | cons l ls ih =>
    unfold admitLinks; split
    · exact ih _
    · exact ih _

lemma processUrl_visited (cfg : CrawlCfg) (d : Nat) (st : WaveState) (url : String) :
    (processUrl cfg d st url).visited = insertSet st.visited url := by
  unfold processUrl
  repeat' split
  all_goals simp [admitLinks_visited, visitUrl]

lemma processUrl_log (cfg : CrawlCfg) (d : Nat) (st : WaveState) (url : String) :
    (processUrl cfg d st url).log = st.log := by
  unfold processUrl
  repeat' split
  all_goals simp [admitLinks_log, visitUrl]

lemma zipLoop_log (cfg : CrawlCfg) (d : Nat) (batch : List String) (st : WaveState) :
    ((zipLoop cfg d batch st).1).log = st.log := by
  induction batch generalizing st with
  | nil => rfl
  | cons url rest ih =>
    unfold zipLoop; split
    · exact processUrl_log ..
    · rw [ih]; exact processUrl_log ..

lemma zipLoop_visited_le (cfg : CrawlCfg) (d : Nat) (batch : List String) (st : WaveState) :
    ((zipLoop cfg d batch st).1).visited.length ≤ st.visited.length + batch.length := by
  induction batch generalizing st with
  | nil => simp [zipLoop]
  | cons url rest ih =>
    have h1 : (processUrl cfg d st url).visited.length ≤ st.visited.length + 1 := by
      rw [processUrl_visited]; exact insertSet_length_le _ _
    unfold zipLoop; split
    · simpa using Nat.le_trans h1 (by simp)
    · have h2 := ih (processUrl cfg d st url)
      simp only [List.length_cons]
      omega

lemma zipLoop_visited_mono (cfg : CrawlCfg) (d : Nat) (batch : List String) (st : WaveState) :
    st.visited ⊆ ((zipLoop cfg d batch st).1).visited := by
  induction batch generalizing st with
  | nil => exact fun a h => h
  | cons url rest ih =>
    have h1 : st.visited ⊆ (processUrl cfg d st url).visited := by
      rw [processUrl_visited]; exact insertSet_subset _ _
    unfold zipLoop; split
    · exact h1
    · exact h1.trans (ih _)

lemma zipLoop_visited_nodup (cfg : CrawlCfg) (d : Nat) (batch : List String) (st : WaveState)
    (h : st.visited.Nodup) : ((zipLoop cfg d batch st).1).visited.Nodup := by
  induction batch generalizing st with
  | nil => exact h
  | cons url rest ih =>
    have h1 : (processUrl cfg d st url).visited.Nodup := by
      rw [processUrl_visited]; exact insertSet_nodup _ h
    unfold zipLoop; split
    · exact h1
    · exact ih _ h1

end EmailExtractor

namespace EmailExtractor

lemma processBatch_log (cfg : CrawlCfg) (d : Nat) (st : WaveState) (b : List String) :
    ((processBatch cfg d st b).1).log = st.log ++ b.map (fun u => (u, d)) := by
  unfold processBatch
  rw [zipLoop_log]

lemma processBatch_visited_le (cfg : CrawlCfg) (d : Nat) (st : WaveState) (b : List String) :
    ((processBatch cfg d st b).1).visited.length ≤ st.visited.length + b.length := by
  unfold processBatch; exact zipLoop_visited_le ..

lemma processBatch_visited_mono (cfg : CrawlCfg) (d : Nat) (st : WaveState) (b : List String) :
    st.visited ⊆ ((processBatch cfg d st b).1).visited := by
  unfold processBatch
  exact zipLoop_visited_mono cfg d b { st with log := st.log ++ b.map (fun u => (u, d)) }

lemma processBatch_visited_nodup (cfg : CrawlCfg) (d : Nat) (st : WaveState) (b : List String)
    (h : st.visited.Nodup) : ((processBatch cfg d st b).1).visited.Nodup := by
  unfold processBatch; exact zipLoop_visited_nodup _ _ _ _ h

lemma batchLoop_visited_le (cfg : CrawlCfg) (d : Nat) (cs : List (List String)) (st : WaveState) :
    ((batchLoop cfg d cs st)).visited.length ≤
      st.visited.length + (cs.map List.length).sum := by
  induction cs generalizing st with
  | nil => simp [batchLoop]
  | cons b bs ih =>
    have h1 := processBatch_visited_le cfg d st b
    unfold batchLoop; split
    · simp only [List.map_cons, List.sum_cons]; omega
    · split
      · simp only [List.map_cons, List.sum_cons]; omega
      · have h2 := ih (processBatch cfg d st b).1
        simp only [List.map_cons, List.sum_cons]
        omega

lemma batchLoop_visited_mono (cfg : CrawlCfg) (d : Nat) (cs : List (List String))
    (st : WaveState) : st.visited ⊆ (batchLoop cfg d cs st).visited := by
  induction cs generalizing st with
  | nil => exact fun a h => h
  | cons b bs ih =>
    have h1 := processBatch_visited_mono cfg d st b
    unfold batchLoop; split
    · exact h1
    · split
      · exact h1
      · exact h1.trans (ih _)

lemma batchLoop_visited_nodup (cfg : CrawlCfg) (d : Nat) (cs : List (List String))
    (st : WaveState) (h : st.visited.Nodup) : (batchLoop cfg d cs st).visited.Nodup := by
  induction cs generalizing st with
  | nil => exact h
  | cons b bs ih =>
    have h1 := processBatch_visited_nodup cfg d st b h
    unfold batchLoop; split
    · exact h1
    · split
      · exact h1
      · exact ih _ h1

lemma batchLoop_log_mem (cfg : CrawlCfg) (d : Nat) (cs : List (List String)) (st : WaveState) :
    ∀ p ∈ (batchLoop cfg d cs st).log, p ∈ st.log ∨ p.2 = d := by
  induction cs generalizing st with
  | nil => exact fun p hp => Or.inl hp
  | cons b bs ih =>
    intro p hp
    unfold batchLoop at hp
    have key : ∀ q ∈ ((processBatch cfg d st b).1).log, q ∈ st.log ∨ q.2 = d := by
      intro q hq
      rw [processBatch_log] at hq
      rcases List.mem_append.mp hq with h | h
      · exact Or.inl h
      · right
        rcases List.mem_map.mp h with ⟨u, _, rfl⟩
        rfl
    split at hp
    · exact key p hp
    · split at hp
      · exact key p hp
      · rcases ih _ p hp with h | h
        · exact key p h
        · exact Or.inr h

lemma chunksGo_sum_length_le (n : Nat) :
    ∀ (fuel : Nat) (l : List String),
      (((chunksGo n fuel l).map List.length).sum ≤ l.length) := by
  intro fuel
  induction fuel with
  | zero =>
    intro l
    cases l with
    | nil => simp [chunksGo]
    | cons a t => simp [chunksGo]
  | succ m ih =>
    intro l
    cases l with
    | nil => simp [chunksGo]
    | cons a t =>
      have h1 := ih ((a :: t).drop n)
      simp only [chunksGo, List.map_cons, List.sum_cons]
      have h2 : ((a :: t).take n).length + ((a :: t).drop n).length = (a :: t).length := by
        rw [List.length_take, List.length_drop]
        omega
      omega

lemma runWave_visited_le (cfg : CrawlCfg) (d : Nat) (visited current : List String)
    (log : List (String × Nat)) :
    (runWave cfg d visited current log).visited.length ≤ visited.length + current.length := by
  unfold runWave chunks
  have h1 := batchLoop_visited_le cfg d (chunksGo (min 20 current.length) current.length current)
    { visited := visited, next := [], log := log }
  have h2 := chunksGo_sum_length_le (min 20 current.length) current.length current
  simp only at h1
  omega

lemma runWave_visited_nodup (cfg : CrawlCfg) (d : Nat) (visited current : List String)
    (log : List (String × Nat)) (h : visited.Nodup) :
    (runWave cfg d visited current log).visited.Nodup := by
  unfold runWave; exact batchLoop_visited_nodup _ _ _ _ h

lemma runWave_log_mem (cfg : CrawlCfg) (d : Nat) (visited current : List String)
    (log : List (String × Nat)) :
    ∀ p ∈ (runWave cfg d visited current log).log, p ∈ log ∨ p.2 = d := by
  unfold runWave
  exact batchLoop_log_mem cfg d (chunks (min 20 current.length) current)
    { visited := visited, next := [], log := log }

end EmailExtractor

namespace EmailExtractor

lemma crawlLoop_visited_le (cfg : CrawlCfg) (fuel : Nat) :
    ∀ (depth : Nat) (visited queued : List String) (log : List (String × Nat))
      (trace : List (List String × List String)),
      visited.length ≤ cfg.maxPages →
      (crawlLoop cfg fuel depth visited queued log trace).visited.length ≤ cfg.maxPages := by
  induction fuel with
  | zero => intro depth visited queued log trace h; exact h
  | succ n ih =>
    intro depth visited queued log trace h
    unfold crawlLoop
    split
    · exact h
    · split
      · exact h
      · apply ih
        have h1 := runWave_visited_le cfg depth visited
          (queued.take (cfg.maxPages - visited.length)) log
        have h2 : (queued.take (cfg.maxPages - visited.length)).length ≤
            cfg.maxPages - visited.length := by
          simp [List.length_take]
        omega

lemma crawlLoop_visited_nodup (cfg : CrawlCfg) (fuel : Nat) :
    ∀ (depth : Nat) (visited queued : List String) (log : List (String × Nat))
      (trace : List (List String × List String)),
      visited.Nodup →
      (crawlLoop cfg fuel depth visited queued log trace).visited.Nodup := by
  induction fuel with
  | zero => intro depth visited queued log trace h; exact h
  | succ n ih =>
    intro depth visited queued log trace h
    unfold crawlLoop
    split
    · exact h
    · split
      · exact h
      · exact ih _ _ _ _ _ (runWave_visited_nodup _ _ _ _ _ h)

lemma crawlLoop_log_depth (cfg : CrawlCfg) (fuel : Nat) :
    ∀ (depth : Nat) (visited queued : List String) (log : List (String × Nat))
      (trace : List (List String × List String)),
      depth + fuel ≤ cfg.maxDepth →
      (∀ p ∈ log, p.2 < cfg.maxDepth) →
      ∀ p ∈ (crawlLoop cfg fuel depth visited queued log trace).log, p.2 < cfg.maxDepth := by
  induction fuel with
  | zero => intro depth visited queued log trace _ hl; exact hl
  | succ n ih =>
    intro depth visited queued log trace hf hl
    unfold crawlLoop
    split
    · exact hl
    · split
      · exact hl
      · apply ih
        · omega
        · intro p hp
          rcases runWave_log_mem cfg depth visited
            (queued.take (cfg.maxPages - visited.length)) log p hp with h | h
          · exact hl p h
          · omega

/-- Claim C2: a crawl run never accumulates more than max_pages distinct
URLs in the visited set (each wave having been truncated to the remaining
page budget), and every wave-member fetch is issued at a depth strictly
below max_depth (the wave loop only runs while depth < max_depth). -/
theorem claim_C2_depth_and_page_budgets (cfg : CrawlCfg) (startUrl : String) :
    (crawlWebsite cfg startUrl).visited.length ≤ cfg.maxPages ∧
    (crawlWebsite cfg startUrl).visited.Nodup ∧
    ∀ p ∈ (crawlWebsite cfg startUrl).log, p.2 < cfg.maxDepth := by
  refine ⟨?_, ?_, ?_⟩
  · exact crawlLoop_visited_le cfg cfg.maxDepth 0 [] [startUrl] [] [] (by simp)
  · exact crawlLoop_visited_nodup cfg cfg.maxDepth 0 [] [startUrl] [] [] List.nodup_nil
  · exact crawlLoop_log_depth cfg cfg.maxDepth 0 [] [startUrl] [] [] (by omega)
      (by intro p hp; simp at hp)

end EmailExtractor

namespace EmailExtractor

lemma mem_insertSet {l : List String} {x a : String} (h : a ∈ insertSet l x) :
    a ∈ l ∨ a = x := by
  unfold insertSet at h
  split at h
  · exact Or.inl h
  · rcases List.mem_append.mp h with h1 | h1
    · exact Or.inl h1
    · exact Or.inr (List.mem_singleton.mp h1)

lemma insertSet_nodup_of {l : List String} (x : String) (h : l.Nodup) :
    (insertSet l x).Nodup := insertSet_nodup x h

lemma admitLinks_next_prop (cfg : CrawlCfg) (d : Nat) (V : List String) :
    ∀ (ls : List String) (st : WaveState),
      V ⊆ st.visited → (∀ u ∈ st.next, u ∉ V) →
      ∀ u ∈ (admitLinks cfg d st ls).next, u ∉ V := by
  intro ls
  induction ls with
  | nil => intro st _ hnext; exact hnext
  | cons link rest ih =>
    intro st hsub hnext
    unfold admitLinks
    split
    · rename_i hadm
      apply ih
      · exact hsub
      · intro u hu
        rcases mem_insertSet hu with h | rfl
        · exact hnext u h
        · have hnv : u ∉ st.visited := by
            unfold shouldCrawl at hadm
            simp only [Bool.and_eq_true] at hadm
            simpa using hadm.1.1.2
          exact fun hV => hnv (hsub hV)
    · exact ih st hsub hnext

lemma admitLinks_next_nodup (cfg : CrawlCfg) (d : Nat) :
    ∀ (ls : List String) (st : WaveState),
      st.next.Nodup → (admitLinks cfg d st ls).next.Nodup := by
  intro ls
  induction ls with
  | nil => intro st h; exact h
  | cons link rest ih =>
    intro st h
    unfold admitLinks
    split
    · exact ih _ (insertSet_nodup_of _ h)
    · exact ih _ h

lemma processUrl_next_prop (cfg : CrawlCfg) (d : Nat) (V : List String) (st : WaveState)
    (url : String) (hsub : V ⊆ st.visited) (hnext : ∀ u ∈ st.next, u ∉ V) :
    ∀ u ∈ (processUrl cfg d st url).next, u ∉ V := by
  have hsub' : V ⊆ (visitUrl st url).visited := by
    intro a ha
    exact insertSet_subset _ _ (hsub ha)
  unfold processUrl
  repeat' split
  · exact admitLinks_next_prop cfg d V _ _ hsub' hnext
  all_goals exact hnext

lemma processUrl_next_nodup (cfg : CrawlCfg) (d : Nat) (st : WaveState) (url : String)
    (h : st.next.Nodup) : (processUrl cfg d st url).next.Nodup := by
  unfold processUrl
  repeat' split
  · exact admitLinks_next_nodup cfg d _ _ h
  all_goals exact h

lemma zipLoop_next_prop (cfg : CrawlCfg) (d : Nat) (V : List String) :
    ∀ (batch : List String) (st : WaveState),
      V ⊆ st.visited → (∀ u ∈ st.next, u ∉ V) →
      ∀ u ∈ ((zipLoop cfg d batch st).1).next, u ∉ V := by
  intro batch
  induction batch with
  | nil => intro st _ hnext; exact hnext
  | cons url rest ih =>
    intro st hsub hnext
    have hsub' : V ⊆ (processUrl cfg d st url).visited := by
      rw [processUrl_visited]
      intro a ha
      exact insertSet_subset _ _ (hsub ha)
    have hnext' := processUrl_next_prop cfg d V st url hsub hnext
    unfold zipLoop
    split
    · exact hnext'
    · exact ih _ hsub' hnext'

lemma zipLoop_next_nodup (cfg : CrawlCfg) (d : Nat) :
    ∀ (batch : List String) (st : WaveState),
      st.next.Nodup → ((zipLoop cfg d batch st).1).next.Nodup := by
  intro batch
  induction batch with
  | nil => intro st h; exact h
  | cons url rest ih =>
    intro st h
    have h' := processUrl_next_nodup cfg d st url h
    unfold zipLoop
    split
    · exact h'
    · exact ih _ h'

lemma zipLoop_cons_stop (cfg : CrawlCfg) (d : Nat) (url : String) (rest : List String)
    (st : WaveState) (hc : cfg.maxPages ≤ (processUrl cfg d st url).visited.length) :
    zipLoop cfg d (url :: rest) st = (processUrl cfg d st url, true) := by
  unfold zipLoop; simp [hc]

lemma zipLoop_cons_go (cfg : CrawlCfg) (d : Nat) (url : String) (rest : List String)
    (st : WaveState) (hc : ¬cfg.maxPages ≤ (processUrl cfg d st url).visited.length) :
    zipLoop cfg d (url :: rest) st = zipLoop cfg d rest (processUrl cfg d st url) := by
  unfold zipLoop
  simp only [hc, if_false]
  cases rest <;> rfl

lemma zipLoop_stop_bound (cfg : CrawlCfg) (d : Nat) :
    ∀ (batch : List String) (st : WaveState),
      (zipLoop cfg d batch st).2 = true →
      cfg.maxPages ≤ ((zipLoop cfg d batch st).1).visited.length := by
  intro batch
  induction batch with
  | nil => intro st h; unfold zipLoop at h; simp at h
  | cons url rest ih =>
    intro st h
    by_cases hc : cfg.maxPages ≤ (processUrl cfg d st url).visited.length
    · rw [zipLoop_cons_stop cfg d url rest st hc]
      exact hc
    · rw [zipLoop_cons_go cfg d url rest st hc] at h ⊢
      exact ih _ h

lemma zipLoop_no_stop_covers (cfg : CrawlCfg) (d : Nat) :
    ∀ (batch : List String) (st : WaveState),
      (zipLoop cfg d batch st).2 = false →
      ∀ u ∈ batch, u ∈ ((zipLoop cfg d batch st).1).visited := by
  intro batch
  induction batch with
  | nil => intro st _ u hu; simp at hu
  | cons url rest ih =>
    intro st h u hu
    by_cases hc : cfg.maxPages ≤ (processUrl cfg d st url).visited.length
    · rw [zipLoop_cons_stop cfg d url rest st hc] at h
      simp at h
    · rw [zipLoop_cons_go cfg d url rest st hc] at h ⊢
      rcases List.mem_cons.mp hu with rfl | hmem
      · have h1 : u ∈ (processUrl cfg d st u).visited := by
          rw [processUrl_visited]; exact mem_insertSet_self _ _
        exact zipLoop_visited_mono cfg d rest _ h1
      · exact ih _ h u hmem

end EmailExtractor

namespace EmailExtractor

lemma processBatch_stop_bound (cfg : CrawlCfg) (d : Nat) (st : WaveState) (b : List String)
    (h : (processBatch cfg d st b).2 = true) :
    cfg.maxPages ≤ ((processBatch cfg d st b).1).visited.length := by
  unfold processBatch at h ⊢
  exact zipLoop_stop_bound cfg d b _ h

lemma processBatch_next_prop (cfg : CrawlCfg) (d : Nat) (V : List String) (st : WaveState)
    (b : List String) (hsub : V ⊆ st.visited) (hnext : ∀ u ∈ st.next, u ∉ V) :
    ∀ u ∈ ((processBatch cfg d st b).1).next, u ∉ V := by
  unfold processBatch
  exact zipLoop_next_prop cfg d V b { st with log := st.log ++ b.map (fun u => (u, d)) }
    hsub hnext

lemma processBatch_next_nodup (cfg : CrawlCfg) (d : Nat) (st : WaveState) (b : List String)
    (h : st.next.Nodup) : ((processBatch cfg d st b).1).next.Nodup := by
  unfold processBatch
  exact zipLoop_next_nodup cfg d b { st with log := st.log ++ b.map (fun u => (u, d)) } h

/-- Every URL that has been logged as fetched is in the visited set. -/
def LogCovered (st : WaveState) : Prop :=
  ∀ u ∈ st.log.map Prod.fst, u ∈ st.visited

lemma processBatch_covers (cfg : CrawlCfg) (d : Nat) (st : WaveState) (b : List String)
    (h : LogCovered st) (hstop : (processBatch cfg d st b).2 = false) :
    LogCovered (processBatch cfg d st b).1 := by
  intro u hu
  rw [processBatch_log, List.map_append] at hu
  rcases List.mem_append.mp hu with h1 | h1
  · exact processBatch_visited_mono cfg d st b (h u h1)
  · have hub : u ∈ b := by
      rcases List.mem_map.mp h1 with ⟨p, hp, rfl⟩
      rcases List.mem_map.mp hp with ⟨v, hv, rfl⟩
      exact hv
    unfold processBatch at hstop ⊢
    exact zipLoop_no_stop_covers cfg d b _ hstop u hub

lemma batchLoop_cons_stop (cfg : CrawlCfg) (d : Nat) (b : List String) (bs : List (List String))
    (st : WaveState) (h2 : (processBatch cfg d st b).2 = true) :
    batchLoop cfg d (b :: bs) st = (processBatch cfg d st b).1 := by
  unfold batchLoop; simp [h2]

lemma batchLoop_cons_bound (cfg : CrawlCfg) (d : Nat) (b : List String) (bs : List (List String))
    (st : WaveState) (h2 : (processBatch cfg d st b).2 = false)
    (hb : cfg.maxPages ≤ ((processBatch cfg d st b).1).visited.length) :
    batchLoop cfg d (b :: bs) st = (processBatch cfg d st b).1 := by
  unfold batchLoop; simp [h2, hb]

lemma batchLoop_cons_go (cfg : CrawlCfg) (d : Nat) (b : List String) (bs : List (List String))
    (st : WaveState) (h2 : (processBatch cfg d st b).2 = false)
    (hb : ¬cfg.maxPages ≤ ((processBatch cfg d st b).1).visited.length) :
    batchLoop cfg d (b :: bs) st = batchLoop cfg d bs (processBatch cfg d st b).1 := by
  unfold batchLoop
  simp only [h2, Bool.false_eq_true, if_false, hb]
  cases bs <;> rfl

lemma batchLoop_next_prop (cfg : CrawlCfg) (d : Nat) (V : List String) :
    ∀ (cs : List (List String)) (st : WaveState),
      V ⊆ st.visited → (∀ u ∈ st.next, u ∉ V) →
      ∀ u ∈ (batchLoop cfg d cs st).next, u ∉ V := by
  intro cs
  induction cs with
  | nil => intro st _ hnext; exact hnext
  | cons b bs ih =>
    intro st hsub hnext
    have hsub' : V ⊆ ((processBatch cfg d st b).1).visited :=
      hsub.trans (processBatch_visited_mono cfg d st b)
    have hnext' := processBatch_next_prop cfg d V st b hsub hnext
    by_cases h2 : (processBatch cfg d st b).2 = true
    · rw [batchLoop_cons_stop cfg d b bs st h2]; exact hnext'
    · have h2' : (processBatch cfg d st b).2 = false := by simpa using h2
      by_cases hb : cfg.maxPages ≤ ((processBatch cfg d st b).1).visited.length
      · rw [batchLoop_cons_bound cfg d b bs st h2' hb]; exact hnext'
      · rw [batchLoop_cons_go cfg d b bs st h2' hb]
        exact ih _ hsub' hnext'

lemma batchLoop_next_nodup (cfg : CrawlCfg) (d : Nat) :
    ∀ (cs : List (List String)) (st : WaveState),
      st.next.Nodup → (batchLoop cfg d cs st).next.Nodup := by
  intro cs
  induction cs with
  | nil => intro st h; exact h
  | cons b bs ih =>
    intro st h
    have h' := processBatch_next_nodup cfg d st b h
    by_cases h2 : (processBatch cfg d st b).2 = true
    · rw [batchLoop_cons_stop cfg d b bs st h2]; exact h'
    · have h2' : (processBatch cfg d st b).2 = false := by simpa using h2
      by_cases hb : cfg.maxPages ≤ ((processBatch cfg d st b).1).visited.length
      · rw [batchLoop_cons_bound cfg d b bs st h2' hb]; exact h'
      · rw [batchLoop_cons_go cfg d b bs st h2' hb]
        exact ih _ h'

lemma batchLoop_covered (cfg : CrawlCfg) (d : Nat) :
    ∀ (cs : List (List String)) (st : WaveState),
      LogCovered st →
      LogCovered (batchLoop cfg d cs st) ∨
        cfg.maxPages ≤ (batchLoop cfg d cs st).visited.length := by
  intro cs
  induction cs with
  | nil => intro st h; exact Or.inl h
  | cons b bs ih =>
    intro st h
    by_cases h2 : (processBatch cfg d st b).2 = true
    · rw [batchLoop_cons_stop cfg d b bs st h2]
      exact Or.inr (processBatch_stop_bound cfg d st b h2)
    · have h2' : (processBatch cfg d st b).2 = false := by simpa using h2
      by_cases hb : cfg.maxPages ≤ ((processBatch cfg d st b).1).visited.length
      · rw [batchLoop_cons_bound cfg d b bs st h2' hb]
        exact Or.inr hb
      · rw [batchLoop_cons_go cfg d b bs st h2' hb]
        exact ih _ (processBatch_covers cfg d st b h h2')

lemma fetchCount_append (u : String) (l1 l2 : List (String × Nat)) :
    fetchCount u (l1 ++ l2) = fetchCount u l1 + fetchCount u l2 := by
  simp [fetchCount, List.count_append]

lemma processBatch_fetchCount (cfg : CrawlCfg) (d : Nat) (st : WaveState) (b : List String)
    (u : String) :
    fetchCount u ((processBatch cfg d st b).1).log = fetchCount u st.log + b.count u := by
  rw [processBatch_log, fetchCount_append]
  congr 1
  unfold fetchCount
  rw [List.map_map]
  have hmap : (Prod.fst ∘ fun u : String => (u, d)) = (id : String → String) := rfl
  rw [hmap, List.map_id]

lemma batchLoop_fetchCount_le (cfg : CrawlCfg) (d : Nat) (u : String) :
    ∀ (cs : List (List String)) (st : WaveState),
      fetchCount u (batchLoop cfg d cs st).log ≤
        fetchCount u st.log + (cs.map (fun b => b.count u)).sum := by
  intro cs
  induction cs with
  | nil => intro st; simp [batchLoop]
  | cons b bs ih =>
    intro st
    have hcount := processBatch_fetchCount cfg d st b u
    by_cases h2 : (processBatch cfg d st b).2 = true
    · rw [batchLoop_cons_stop cfg d b bs st h2, hcount]
      simp only [List.map_cons, List.sum_cons]
      omega
    · have h2' : (processBatch cfg d st b).2 = false := by simpa using h2
      by_cases hb : cfg.maxPages ≤ ((processBatch cfg d st b).1).visited.length
      · rw [batchLoop_cons_bound cfg d b bs st h2' hb, hcount]
        simp only [List.map_cons, List.sum_cons]
        omega
      · rw [batchLoop_cons_go cfg d b bs st h2' hb]
        have := ih (processBatch cfg d st b).1
        simp only [List.map_cons, List.sum_cons]
        omega

lemma chunksGo_sum_count_le (u : String) (n : Nat) :
    ∀ (fuel : Nat) (l : List String),
      ((chunksGo n fuel l).map (fun b => b.count u)).sum ≤ l.count u := by
  intro fuel
  induction fuel with
  | zero =>
    intro l
    cases l with
    | nil => simp [chunksGo]
    | cons a t => simp [chunksGo]
  | succ m ih =>
    intro l
    cases l with
    | nil => simp [chunksGo]
    | cons a t =>
      have h1 := ih ((a :: t).drop n)
      have htot : ((a :: t).take n).count u + ((a :: t).drop n).count u = (a :: t).count u := by
        rw [← List.count_append, List.take_append_drop]
      simp only [chunksGo, List.map_cons, List.sum_cons]
      omega

lemma runWave_next_prop (cfg : CrawlCfg) (d : Nat) (visited current : List String)
    (log : List (String × Nat)) :
    ∀ u ∈ (runWave cfg d visited current log).next, u ∉ visited := by
  unfold runWave
  exact batchLoop_next_prop cfg d visited (chunks (min 20 current.length) current)
    { visited := visited, next := [], log := log } (fun a h => h) (by intro u hu; simp at hu)

lemma runWave_next_nodup (cfg : CrawlCfg) (d : Nat) (visited current : List String)
    (log : List (String × Nat)) : (runWave cfg d visited current log).next.Nodup := by
  unfold runWave
  exact batchLoop_next_nodup cfg d (chunks (min 20 current.length) current)
    { visited := visited, next := [], log := log } List.nodup_nil

lemma runWave_covered (cfg : CrawlCfg) (d : Nat) (visited current : List String)
    (log : List (String × Nat)) (h : ∀ u ∈ log.map Prod.fst, u ∈ visited) :
    LogCovered (runWave cfg d visited current log) ∨
      cfg.maxPages ≤ (runWave cfg d visited current log).visited.length := by
  unfold runWave
  exact batchLoop_covered cfg d (chunks (min 20 current.length) current)
    { visited := visited, next := [], log := log } h

lemma runWave_fetchCount_le (cfg : CrawlCfg) (d : Nat) (visited current : List String)
    (log : List (String × Nat)) (u : String) :
    fetchCount u (runWave cfg d visited current log).log ≤
      fetchCount u log + current.count u := by
  unfold runWave chunks
  have h1 := batchLoop_fetchCount_le cfg d u
    (chunksGo (min 20 current.length) current.length current)
    { visited := visited, next := [], log := log }
  have h2 := chunksGo_sum_count_le u (min 20 current.length) current.length current
  simp only at h1
  omega

end EmailExtractor

namespace EmailExtractor

lemma crawlLoop_fetchCount_le_two (cfg : CrawlCfg) (fuel : Nat) :
    ∀ (depth : Nat) (visited queued : List String) (log : List (String × Nat))
      (trace : List (List String × List String)),
      (∀ u, fetchCount u log ≤ 2) →
      (∀ u ∈ queued, fetchCount u log ≤ 1) →
      ((∀ u ∈ log.map Prod.fst, u ∈ visited) ∨ cfg.maxPages ≤ visited.length) →
      queued.Nodup →
      ∀ u, fetchCount u (crawlLoop cfg fuel depth visited queued log trace).log ≤ 2 := by
  induction fuel with
  | zero => intro _ _ _ _ _ h2 _ _ _ u; exact h2 u
  | succ n ih =>
    intro depth visited queued log trace h2 h1 hcov hnd u
    unfold crawlLoop
    split
    · exact h2 u
    · split
      · exact h2 u
      · rename_i hq hr
        have hlt : visited.length < cfg.maxPages := by
          simp only [Bool.or_eq_true, List.isEmpty_iff, decide_eq_true_eq, not_or] at hq
          omega
        have hcov' : ∀ v ∈ log.map Prod.fst, v ∈ visited := by
          rcases hcov with h | h
          · exact h
          · exact absurd h (by omega)
        have hcurnd : (queued.take (cfg.maxPages - visited.length)).Nodup :=
          (List.take_sublist _ _).nodup hnd
        apply ih
        · intro v
          have hc := runWave_fetchCount_le cfg depth visited
            (queued.take (cfg.maxPages - visited.length)) log v
          by_cases hvmem : v ∈ queued.take (cfg.maxPages - visited.length)
          · have hv1 := h1 v (List.take_subset _ _ hvmem)
            have hcnt1 : (queued.take (cfg.maxPages - visited.length)).count v ≤ 1 :=
              List.nodup_iff_count_le_one.mp hcurnd v
            omega
          · have hz : (queued.take (cfg.maxPages - visited.length)).count v = 0 :=
              List.count_eq_zero.mpr hvmem
            have := h2 v
            omega
        · intro v hv
          have hnotvis : v ∉ visited := runWave_next_prop cfg depth visited
            (queued.take (cfg.maxPages - visited.length)) log v hv
          have hzero : fetchCount v log = 0 := by
            by_contra hnz
            have hpos : 0 < fetchCount v log := Nat.pos_of_ne_zero hnz
            have hmem : v ∈ log.map Prod.fst := by
              unfold fetchCount at hpos
              exact List.count_pos_iff.mp hpos
            exact hnotvis (hcov' v hmem)
          have hc := runWave_fetchCount_le cfg depth visited
            (queued.take (cfg.maxPages - visited.length)) log v
          have hcnt1 : (queued.take (cfg.maxPages - visited.length)).count v ≤ 1 :=
            List.nodup_iff_count_le_one.mp hcurnd v
          omega
        · exact runWave_covered cfg depth visited
            (queued.take (cfg.maxPages - visited.length)) log hcov'
        · exact runWave_next_nodup cfg depth visited
            (queued.take (cfg.maxPages - visited.length)) log

/-- A concrete crawl scenario: the start page "s" links to "a" and "b",
and "a" links to "b".  In wave 1 the set iteration processes "a" before
"b": while "b" is still unprocessed (not yet visited, and the queued set
was cleared at wave start), the link from "a" to "b" passes the admission
check and is queued again. -/
def cexCrawlCfg : CrawlCfg :=
  { maxDepth := 3
  , maxPages := 10
  , policy := fun _ => true
  , fetchOk := fun _ => true
  , links := fun u => if u = "s" then some ["a", "b"] else if u = "a" then some ["b"] else some [] }

/-- Claim C3, counterexample.  The claim asserts visited and queued stay
disjoint at all times and no URL is fetched as a wave member twice.  In the
concrete run, "b" is fetched in wave 1 and again in wave 2 (fetch count 2),
and the wave-boundary snapshot after wave 1 has visited = [s, a, b] and
queued = [b], which intersect in "b". -/
theorem claim_C3_counterexample :
    fetchCount "b" (crawlWebsite cexCrawlCfg "s").log = 2 ∧
    (crawlWebsite cexCrawlCfg "s").log = [("s", 0), ("a", 1), ("b", 1), ("b", 2)] ∧
    (crawlWebsite cexCrawlCfg "s").trace =
      [(["s"], ["a", "b"]), (["s", "a", "b"], ["b"]), (["s", "a", "b"], [])] := by
  exact ⟨by decide, by decide, by decide⟩

/-- Claim C3, amended.  At the moment a link is checked for admission, a URL
already in visited or queued is always rejected; consequently every URL is
fetched as a wave member at most twice in a run.  The full disjointness
invariant fails only in the one re-queue shape of the counterexample: a link
discovered during a wave that names a URL fetched later in that same wave
(the queued set having been cleared for the wave) is admitted again and
fetched once more in the next wave. -/
theorem claim_C3_amended_admission_and_double_fetch_bound :
    (∀ (maxDepth : Nat) (policy : String → Bool) (visited queued : List String)
        (url : String) (depth : Nat),
        url ∈ visited ∨ url ∈ queued →
        shouldCrawl maxDepth policy visited queued url depth = false) ∧
    (∀ (cfg : CrawlCfg) (startUrl : String) (u : String),
        fetchCount u (crawlWebsite cfg startUrl).log ≤ 2) := by
  constructor
  · intro maxDepth policy visited queued url depth h
    unfold shouldCrawl
    rcases h with h | h
    · have hc : visited.contains url = true := by simpa using h
      simp only [hc]
      simp
    · have hc : queued.contains url = true := by simpa using h
      simp only [hc]
      simp
  · intro cfg s u
    exact crawlLoop_fetchCount_le_two cfg cfg.maxDepth 0 [] [s] [] []
      (by intro v; simp [fetchCount]) (by intro v hv; simp [fetchCount])
      (Or.inl (by intro v hv; simp at hv)) (List.nodup_singleton s) u

/-- Witness for the amended C3 theorem: a URL already in the visited set
fails the admission check at a concrete instance. -/
theorem claim_C3_amended_witness :
    ("a" ∈ ["a"] ∨ "a" ∈ ([] : List String)) ∧
    shouldCrawl 5 (fun _ => true) ["a"] [] "a" 0 = false :=
  ⟨Or.inl (by simp),
    claim_C3_amended_admission_and_double_fetch_bound.1 5 (fun _ => true) ["a"] [] "a" 0
      (Or.inl (by simp))⟩

end EmailExtractor

namespace EmailExtractor

/-- Claim C4: domain confinement.  Whenever the URL parses and its host
differs from the crawl's base domain, `_should_crawl_url` returns false,
whatever the allow/deny lists, excluded extensions, robots oracle, query
parameters, frontier contents or depth are: every early exit of the
function returns false, and the only `return True` paths are behind the
`parsed.netloc != base_domain` test. -/
theorem claim_C4_domain_confinement (cfg : PolicyConfig)
    (parse : String → Except String ParsedUrl)
    (robotsOracle : String → Except String Bool)
    (visited queued : List String) (url baseDomain : String) (depth : Nat)
    (p : ParsedUrl) (hp : parse url = Except.ok p) (hne : p.netloc ≠ baseDomain) :
    should_crawl_url cfg parse robotsOracle visited queued url baseDomain depth = false := by
  unfold should_crawl_url
  rw [hp]
  repeat' split
  all_goals first | rfl | simp_all

/-- A parsed URL whose host is not the crawl's base domain. -/
def foreignParsedUrl : ParsedUrl := { netloc := "evil.example", path := "/", query := [] }

/-- Witness for claim C4 at a concrete off-domain URL. -/
theorem claim_C4_witness :
    (fun _ : String => (Except.ok foreignParsedUrl : Except String ParsedUrl))
        "http://evil.example/" = Except.ok foreignParsedUrl ∧
    foreignParsedUrl.netloc ≠ "good.example" ∧
    should_crawl_url
      { maxDepth := 5, allowedDomains := [], excludedDomains := [], excludedExtensions := [] }
      (fun _ => Except.ok foreignParsedUrl) (fun _ => Except.ok true) [] []
      "http://evil.example/" "good.example" 0 = false :=
  ⟨rfl, by decide,
    claim_C4_domain_confinement _ _ _ _ _ _ _ _ foreignParsedUrl rfl (by decide)⟩

/-- Claim C9, counterexample.  The claim says an exception inside
`_should_crawl_url`'s domain/robots evaluation results in the URL being
admitted.  But the function's own try/except returns False: with a parse
oracle that throws, the URL is rejected, not admitted. -/
theorem claim_C9_counterexample :
    should_crawl_url
      { maxDepth := 5, allowedDomains := [], excludedDomains := [], excludedExtensions := [] }
      (fun _ => Except.error "urlparse failed") (fun _ => Except.ok true) [] []
      "http://bad" "example.com" 0 = false := rfl

/-- Claim C9, amended.  Fail-open holds only inside the robots check:
`_can_fetch` catches its own exceptions and returns True, so a throwing
robots oracle admits.  An exception reaching `_should_crawl_url`'s body
(such as a parse failure) is caught by its enclosing try/except and the URL
is rejected (fail-closed), not admitted. -/
theorem claim_C9_amended_fail_open_only_for_robots :
    (∀ (robotsOracle : String → Except String Bool) (url msg : String),
        robotsOracle url = Except.error msg → can_fetch robotsOracle url = true) ∧
    (∀ (cfg : PolicyConfig) (parse : String → Except String ParsedUrl)
        (robotsOracle : String → Except String Bool)
        (visited queued : List String) (url baseDomain : String) (depth : Nat) (msg : String),
        parse url = Except.error msg →
        should_crawl_url cfg parse robotsOracle visited queued url baseDomain depth = false) := by
  constructor
  · intro robots url msg h
    unfold can_fetch
    rw [h]
  · intro cfg parse robots visited queued url base depth msg h
    unfold should_crawl_url
    rw [h]

/-- Witness for the amended C9 theorem at concrete throwing oracles. -/
theorem claim_C9_amended_witness :
    ((fun _ : String => (Except.error "net down" : Except String Bool)) "http://a.example/" =
      Except.error "net down") ∧
    can_fetch (fun _ => Except.error "net down") "http://a.example/" = true ∧
    ((fun _ : String => (Except.error "bad url" : Except String ParsedUrl)) "::" =
      Except.error "bad url") ∧
    should_crawl_url
      { maxDepth := 5, allowedDomains := [], excludedDomains := [], excludedExtensions := [] }
      (fun _ => Except.error "bad url") (fun _ => Except.ok true) [] []
      "::" "a.example" 0 = false :=
  ⟨rfl, claim_C9_amended_fail_open_only_for_robots.1 _ _ _ rfl, rfl,
    claim_C9_amended_fail_open_only_for_robots.2 _ _ _ _ _ _ _ _ _ rfl⟩

end EmailExtractor

namespace EmailExtractor

/-- The character class `[\d\s\-\(\)\.]` of the strict parser's phone
pattern (ASCII whitespace). -/
def inPhoneClass (c : Char) : Bool :=
  isAsciiDigit c || isPyWhitespace c || c == '-' || c == '(' || c == ')' || c == '.'

/-- The scanning state of `re.sub(r'\s+', ' ', text)`: every maximal
whitespace run becomes one space.  The flag records whether the previous
character was whitespace. -/
def collapseWsGo : Bool → Str → Str
  | _, [] => []
  | prevWs, c :: rest =>
    if isPyWhitespace c then
      if prevWs then collapseWsGo true rest
      else ' ' :: collapseWsGo true rest
    else c :: collapseWsGo false rest

/-- The text cleaning `re.sub(r'\s+', ' ', text).strip()` shared by the
context parsers. -/
def cleanTextPy (s : Str) : Str := pyStrip (collapseWsGo false s)

/-- Number of digit characters, `len(re.sub(r'[^\d]', '', phone))`. -/
def digitCount (s : Str) : Nat := (s.filter isAsciiDigit).length

/-- Match of `[\+]?[\d\s\-\(\)\.]{10,15}` anchored at the start of the
input: an optional plus, then greedily up to 15 phone-class characters with
at least 10 required (nothing follows in the pattern, so no backtracking
arises).  Returns the matched span and the rest of the input. -/
def phoneMatchAt (l : Str) : Option (Str × Str) :=
  match l with
  | '+' :: r =>
    if 10 ≤ ((r.takeWhile inPhoneClass).take 15).length then
      some ('+' :: (r.takeWhile inPhoneClass).take 15,
        r.drop ((r.takeWhile inPhoneClass).take 15).length)
    else none
  | _ =>
    if 10 ≤ ((l.takeWhile inPhoneClass).take 15).length then
      some ((l.takeWhile inPhoneClass).take 15,
        l.drop ((l.takeWhile inPhoneClass).take 15).length)
    else none

/-- `re.findall` of the phone pattern: scan left to right, at each position
try a match, continue after a successful (non-overlapping) match, else
advance one character.  The fuel is the input length; every step consumes
at least one character. -/
def phoneFindallGo : Nat → Str → List Str
  | 0, _ => []
  | _, [] => []
  | fuel + 1, l =>
    match phoneMatchAt l with
    | some (m, rest) => m :: phoneFindallGo fuel rest
    | none => phoneFindallGo fuel (l.drop 1)

/-- All matches of the strict parser's phone pattern. -/
def phoneFindall (l : Str) : List Str := phoneFindallGo l.length l

/-- The phone portion of WebsiteCrawler._parse_context_with_regex_strict
(website_crawler.py lines 1098-1104): clean the text, findall the loose
phone pattern `[\+]?[\d\s\-\(\)\.]{10,15}`, and return the first match
stripped - with no digit-count check. -/
def strict_phone (text : Str) : Str :=
  match phoneFindall (cleanTextPy text) with
  | [] => []
  | m :: _ => pyStrip m

/-- WebsiteCrawler._extract_phone_number_ai (lines 846-868): the four phone
pattern searches are abstracted as the ordered list of their results on the
text; each found span is stripped and returned only if it carries at least
10 digits, otherwise the next pattern is tried. -/
def extract_phone_number_ai : List (Option Str) → Str
  | [] => []
  | none :: rest => extract_phone_number_ai rest
  | some m :: rest =>
    if 10 ≤ digitCount (pyStrip m) then pyStrip m
    else extract_phone_number_ai rest

/-- Claim C8, counterexample.  The strict regex fallback path returns the
phone span `(123) 456-789`, which is non-empty but has only 9 digits: its
pattern only demands 10-15 characters from the phone character class
(spaces and punctuation included) and the digit-count re-check of the
NLP-assisted path is missing. -/
theorem claim_C8_counterexample :
    strict_phone ("Tel (123) 456-789 office".toList) = "(123) 456-789".toList ∧
    digitCount (strict_phone ("Tel (123) 456-789 office".toList)) = 9 ∧
    strict_phone ("Tel (123) 456-789 office".toList) ≠ [] := by
  refine ⟨by decide, by decide, by decide⟩

/-- Claim C8, amended.  Only the NLP-assisted path guarantees the digit
bound: `_extract_phone_number_ai` returns the empty string or a span with
at least 10 digits, for every combination of pattern-search outcomes.  The
strict regex fallback path does not enforce a digit count (see the
counterexample). -/
theorem claim_C8_amended_ai_path_digit_bound :
    ∀ searchResults : List (Option Str),
      extract_phone_number_ai searchResults = [] ∨
        10 ≤ digitCount (extract_phone_number_ai searchResults) := by
  intro rs
  induction rs with
  | nil => exact Or.inl rfl
  | cons r rest ih =>
    cases r with
    | none => simpa [extract_phone_number_ai] using ih
    | some m =>
      by_cases h : 10 ≤ digitCount (pyStrip m)
      · right
        simp [extract_phone_number_ai, h]
      · simpa [extract_phone_number_ai, h] using ih

end EmailExtractor

namespace EmailExtractor

/-- ASCII uppercase test. -/
def isAsciiUpper (c : Char) : Bool := 'A' ≤ c && c ≤ 'Z'

/-- ASCII lowercase test, the `[a-z]` class. -/
def isLowerAlpha (c : Char) : Bool := 'a' ≤ c && c ≤ 'z'

/-- Python `str.capitalize()` (ASCII): first character upper-cased, the
rest lower-cased. -/
def capitalizePy : Str → Str
  | [] => []
  | c :: rest => c.toUpper :: rest.map Char.toLower

/-- Python `str.isalpha()` for ASCII text: non-empty and all letters. -/
def pyIsAlpha (s : Str) : Bool := !s.isEmpty && s.all isAsciiAlpha

/-- Python `s.split()` with no argument: maximal non-whitespace runs, no
empty words.  The fuel (instantiated with the length) only serves
termination. -/
def pySplitWsGo : Nat → Str → List Str
  | 0, _ => []
  | _, [] => []
  | fuel + 1, c :: rest =>
    if isPyWhitespace c then pySplitWsGo fuel rest
    else (c :: rest.takeWhile (fun d => !isPyWhitespace d)) ::
      pySplitWsGo fuel (rest.dropWhile (fun d => !isPyWhitespace d))

/-- Python `s.split()`. -/
def pySplitWs (s : Str) : List Str := pySplitWsGo s.length s

/-- Is `needle` a contiguous substring of the haystack (Python `in`)? -/
def isSubstringOf (needle : Str) : Str → Bool
  | [] => needle.isEmpty
  | c :: rest => needle.isPrefixOf (c :: rest) || isSubstringOf needle rest

/-- The non-name indicator list of `_is_confident_name`
(website_crawler.py lines 988-992). -/
def nonNameIndicators : List Str :=
  [ "consultation".toList, "info".toList, "contact".toList, "admin".toList, "support".toList
  , "department".toList, "faculty".toList, "office".toList, "secretary".toList, "email".toList
  , "phone".toList, "address".toList, "university".toList, "college".toList ]

/-- WebsiteCrawler._is_confident_name (website_crawler.py lines 974-1004):
2-4 words, no non-name indicator substring, every word at least two
characters, capitalized and alphabetic. -/
def is_confident_name (name : Str) : Bool :=
  if name.isEmpty || decide ((pyStrip name).length < 3) then false
  else
    if decide ((pySplitWs (pyStrip name)).length < 2) ||
        decide (4 < (pySplitWs (pyStrip name)).length) then false
    else if nonNameIndicators.any
        (fun ind => isSubstringOf ind (toLowerStr (pyStrip name))) then false
    else if (pySplitWs (pyStrip name)).any
        (fun w => !(decide (2 ≤ w.length) &&
          (match w.head? with | some c => isAsciiUpper c | none => false) &&
          pyIsAlpha w)) then false
    else true

/-- The name portion of WebsiteCrawler._parse_context_with_regex_strict
(lines 1107-1119): each strict pattern's findall result is abstracted as a
list of match strings; when a pattern has matches, only the first is
stripped and gated through `_is_confident_name`, and a failing gate moves
on to the next pattern with the name left empty. -/
def strict_name : List (List Str) → Str
  | [] => []
  | [] :: rest => strict_name rest
  | (m :: _) :: rest =>
    if is_confident_name (pyStrip m) then pyStrip m
    else strict_name rest

/-- First pattern match, as used for the title and company portions of the
strict parser (lines 1122-1148): the first pattern with matches wins, its
first match taken verbatim. -/
def first_match : List (List Str) → Str
  | [] => []
  | [] :: rest => first_match rest
  | (m :: _) :: _ => m

/-- The record returned by the context parsers. -/
structure ContextInfo where
  name : Str
  title : Str
  company : Str
  phone : Str
deriving Repr, DecidableEq

/-- WebsiteCrawler._parse_context_with_regex_strict (lines 1095-1155).  The
regex scans are abstracted as per-pattern match lists; the email parameter
of the Python function is never read by its body, so the name can only come
from the text matches. -/
def parse_context_with_regex_strict (text : Str)
    (nameMatches titleMatches companyMatches : List (List Str)) : ContextInfo :=
  { name := strict_name nameMatches
  , title := first_match titleMatches
  , company := first_match companyMatches
  , phone := strict_phone text }

/-- Keep only ASCII letters, `re.sub(r'[^a-zA-Z]', '', s)`. -/
def keepAlpha (s : Str) : Str := s.filter isAsciiAlpha

/-- ContactMatcher._extract_name_from_email (contact_matcher.py lines
390-415): a two-part dotted local part becomes "First Last" when both
cleaned parts have length over one; otherwise the whole local part is
stripped of non-letters and capitalized, returned when longer than two
characters; else None. -/
def extract_name_from_email (email : Str) : Option Str :=
  let lp := localPart email
  let single : Option Str :=
    if 2 < (capitalizePy (keepAlpha lp)).length then some (capitalizePy (keepAlpha lp))
    else none
  if lp.contains '.' then
    match splitOnChar '.' lp with
    | [f, l] =>
      if 1 < (capitalizePy (keepAlpha f)).length && 1 < (capitalizePy (keepAlpha l)).length then
        some (capitalizePy (keepAlpha f) ++ (' ' :: capitalizePy (keepAlpha l)))
      else single
    | _ => single
  else single

/-- ContactMatcher._extract_company_from_domain (lines 417-440): the main
label of the email's domain (skipping a co/com/net/org second-level label),
dashes and underscores turned into spaces, words capitalized.  A missing
`@` raises IndexError, caught as None. -/
def extract_company_from_domain (email : Str) : Option Str :=
  match (splitOnChar '@' email).get? 1 with
  | none => none
  | some d0 =>
    let parts := splitOnChar '.' (toLowerStr d0)
    let company :=
      if 2 < parts.length then
        if !([ "co".toList, "com".toList, "net".toList, "org".toList ].contains
            (parts.getD (parts.length - 2) [])) then
          parts.getD (parts.length - 2) []
        else
          parts.getD (parts.length - 3) []
      else parts.headD []
    some (List.intercalate [' ']
      ((pySplitWs (company.map (fun c => if c == '-' || c == '_' then ' ' else c))).map
        capitalizePy))

/-- The contact-info fields found near an email by the DOM and text
heuristics (the result of _find_contact_info_near_email, abstracted). -/
structure FoundInfo where
  name : Option Str := none
  title : Option Str := none
  company : Option Str := none
  phone : Option Str := none

/-- Python truthiness of an optional string field. -/
def truthy : Option Str → Bool
  | some s => !s.isEmpty
  | none => false

/-- One email candidate as handed to the contact matcher. -/
structure EmailData where
  email : Str
  method : String
  confidence : Rat
  context : Str

/-- The enriched contact record built by match_contacts. -/
structure MatchedContact where
  email : Str
  sourceUrl : String
  extractionMethod : String
  confidence : Rat
  context : Str
  name : Option Str
  title : Option Str
  company : Option Str
  phone : Option Str

/-- ContactMatcher.match_contacts, the per-email body (contact_matcher.py
lines 42-69).  The DOM/text search `_find_contact_info_near_email` is an
oracle; after merging its result, an empty or missing name is overwritten
with `_extract_name_from_email(email)` and an empty or missing company
with `_extract_company_from_domain(email)`. -/
def match_contacts_one (findInfo : Str → FoundInfo) (sourceUrl : String)
    (ed : EmailData) : MatchedContact :=
  { email := ed.email
  , sourceUrl := sourceUrl
  , extractionMethod := ed.method
  , confidence := ed.confidence
  , context := ed.context
  , name :=
      if truthy (findInfo ed.email).name then (findInfo ed.email).name
      else extract_name_from_email ed.email
  , title := (findInfo ed.email).title
  , company :=
      if truthy (findInfo ed.email).company then (findInfo ed.email).company
      else extract_company_from_domain ed.email
  , phone := (findInfo ed.email).phone }

/-- Pattern 1/2 of infer_name_from_email: `^([a-z]+)Sep([a-z]+)$` for a
separator character. -/
def inferSepPair (sep : Char) (u : Str) : Option (Str × Str) :=
  match splitOnChar sep u with
  | [f, l] =>
    if !f.isEmpty && f.all isLowerAlpha && !l.isEmpty && l.all isLowerAlpha then some (f, l)
    else none
  | _ => none

/-- Pattern 3 of infer_name_from_email: `^([a-z])([a-z]{3,})$`. -/
def inferInitialPair (u : Str) : Option (Str × Str) :=
  match u with
  | c :: rest =>
    if isLowerAlpha c && decide (3 ≤ rest.length) && rest.all isLowerAlpha then
      some ([c], rest)
    else none
  | [] => none

/-- Pattern 4 of infer_name_from_email: `^([a-z]{3,8})([a-z]{3,})$` with a
greedy first group, so the split point is min(8, length-3). -/
def inferConcatPair (u : Str) : Option (Str × Str) :=
  if u.all isLowerAlpha && decide (6 ≤ u.length) then
    some (u.take (min 8 (u.length - 3)), u.drop (min 8 (u.length - 3)))
  else none

/-- Assembly of a first/last pair: a one-letter first name gets a dot,
mirroring lines 1419-1423. -/
def nameOfPair (p : Str × Str) : Str :=
  if (capitalizePy p.1).length = 1 then
    capitalizePy p.1 ++ ('.' :: ' ' :: capitalizePy p.2)
  else capitalizePy p.1 ++ (' ' :: capitalizePy p.2)

/-- Generalization of splitOnChar to a character predicate, for
`re.split(r'[._-]', username)` (empty segments kept). -/
def splitOnPred (p : Char → Bool) : Str → List Str
  | [] => [[]]
  | c :: rest =>
    if p c then [] :: splitOnPred p rest
    else
      match splitOnPred p rest with
      | [] => [[c]]
      | s :: ss => (c :: s) :: ss

/-- WebsiteCrawler.infer_name_from_email (website_crawler.py lines
1396-1426): the four local-part patterns in order, else every dot, dash or
underscore separated word of the username capitalized. -/
def infer_name_from_email (email : Str) : Str :=
  match inferSepPair '.' (toLowerStr (localPart email)) with
  | some p => nameOfPair p
  | none =>
    match inferSepPair '_' (toLowerStr (localPart email)) with
    | some p => nameOfPair p
    | none =>
      match inferInitialPair (toLowerStr (localPart email)) with
      | some p => nameOfPair p
      | none =>
        match inferConcatPair (toLowerStr (localPart email)) with
        | some p => nameOfPair p
        | none =>
          List.intercalate [' ']
            ((splitOnPred (fun c => c == '.' || c == '_' || c == '-')
              (localPart email)).map capitalizePy)

/-- The name portion of WebsiteCrawler._parse_context_with_regex (lines
881-902): the title-name pattern matches are abstracted per pattern; the
first pattern whose first match survives the department-word filter and
has at least two words wins; with no surviving candidate the name is
DEFAULTED to infer_name_from_email(email). -/
def regex_fallback_name (ms : List (List Str)) (email : Str) : Str :=
  match regex_fallback_name_go ms with
  | some n => n
  | none => infer_name_from_email email
where
  regex_fallback_name_go : List (List Str) → Option Str
    | [] => none
    | [] :: rest => regex_fallback_name_go rest
    | (m :: _) :: rest =>
      if !(["department".toList, "engineering".toList, "science".toList].any
            (fun w => isSubstringOf w (toLowerStr (pyStrip m)))) &&
          decide (2 ≤ (pySplitWs (pyStrip m)).length) then
        some (pyStrip m)
      else regex_fallback_name_go rest

end EmailExtractor

namespace EmailExtractor

example : extract_name_from_email ("jane.doe@example.com".toList) = some ("Jane Doe".toList) := by
  decide
example : infer_name_from_email ("john.doe@x.com".toList) = "John Doe".toList := by decide
example : infer_name_from_email ("jsmith@x.com".toList) = "J. Smith".toList := by decide
example : infer_name_from_email ("info@x.com".toList) = "I. Nfo".toList := by decide
example : is_confident_name ("Jane Doe".toList) = true := by decide
example : is_confident_name ("info desk".toList) = false := by decide
example : extract_company_from_domain ("a@mail.acme-corp.com".toList) = some ("Acme Corp".toList) := by decide

/-- Claim C5, counterexample.  The claim says the contact-context
attachment never defaults the name to a value derived from the email's
local part.  But match_contacts does exactly that: with no name found in
any context, the contact for jane.doe@example.com comes back with name
"Jane Doe", fabricated by _extract_name_from_email from the local part. -/
theorem claim_C5_counterexample :
    extract_name_from_email ("jane.doe@example.com".toList) = some ("Jane Doe".toList) ∧
    (match_contacts_one (fun _ => {}) "http://x.example/"
      { email := "jane.doe@example.com".toList, method := "mailto_link"
      , confidence := 0.95, context := [] }).name = some ("Jane Doe".toList) := by
  exact ⟨by decide, by decide⟩

/-- Claim C5, amended.  The strict parsing path keeps the no-fabrication
discipline: _parse_context_with_regex_strict returns an empty name unless a
text match passes _is_confident_name (and its body never reads the email).
But match_contacts defaults an empty or missing name to
_extract_name_from_email(email) (and an empty company to a domain-derived
guess), and _parse_context_with_regex defaults the name to
infer_name_from_email(email) when no title-name pattern survives. -/
theorem claim_C5_amended_no_fabrication_only_in_strict_path :
    (∀ (text : Str) (nm tm cm : List (List Str)),
        (parse_context_with_regex_strict text nm tm cm).name = [] ∨
          is_confident_name ((parse_context_with_regex_strict text nm tm cm).name) = true) ∧
    (∀ (findInfo : Str → FoundInfo) (srcUrl : String) (ed : EmailData),
        truthy (findInfo ed.email).name = false →
        (match_contacts_one findInfo srcUrl ed).name = extract_name_from_email ed.email) ∧
    (∀ email : Str, regex_fallback_name [] email = infer_name_from_email email) := by
  refine ⟨?_, ?_, ?_⟩
  · intro text nm tm cm
    show strict_name nm = [] ∨ is_confident_name (strict_name nm) = true
    induction nm with
    | nil => exact Or.inl rfl
    | cons m rest ih =>
      cases m with
      | nil => simpa [strict_name] using ih
      | cons x xs =>
        by_cases h : is_confident_name (pyStrip x) = true
        · right; simp [strict_name, h]
        · have h' : is_confident_name (pyStrip x) = false := by simpa using h
          simpa [strict_name, h'] using ih
  · intro findInfo srcUrl ed h
    unfold match_contacts_one
    simp [h]
  · intro email
    rfl

/-- Witness for the amended C5 theorem: with no context information found,
the matcher's name equals the email-derived inference at a concrete input. -/
theorem claim_C5_amended_witness :
    truthy ((fun _ : Str => ({} : FoundInfo)) ("ann@b.co".toList)).name = false ∧
    (match_contacts_one (fun _ => {}) "http://u.example/"
      { email := "ann@b.co".toList, method := "m", confidence := 1, context := [] }).name =
      extract_name_from_email ("ann@b.co".toList) :=
  ⟨rfl, claim_C5_amended_no_fabrication_only_in_strict_path.2.1 (fun _ => {}) "http://u.example/"
    { email := "ann@b.co".toList, method := "m", confidence := 1, context := [] } rfl⟩

end EmailExtractor

namespace EmailExtractor

/-- The apostrophe character, written by code point. -/
def apostropheChar : Char := Char.ofNat 39

/-- ASCII alphanumeric test. -/
def isAsciiAlphaNum (c : Char) : Bool := isAsciiAlpha c || isAsciiDigit c

/-- Word-constituent characters for the `\b` boundary of Python regexes. -/
def isWordChar (c : Char) : Bool := isAsciiAlphaNum c || c == '_'

/-- Does the word match at the start of `l`, with a word boundary after? -/
def wordAt (w : Str) (l : Str) : Bool :=
  w.isPrefixOf l &&
    (match (l.drop w.length).head? with
     | some c => !isWordChar c
     | none => true)

/-- Scan for a `\b w \b` occurrence; `prev` is the character before the
current position (none at the start of the string). -/
def containsWordFrom (w : Str) : Option Char → Str → Bool
  | prev, [] =>
    (match prev with | some c => !isWordChar c | none => true) && wordAt w []
  | prev, c :: rest =>
    ((match prev with | some b => !isWordChar b | none => true) && wordAt w (c :: rest)) ||
      containsWordFrom w (some c) rest

/-- Python `re.search(r'\b' + w + r'\b', s)` for a literal word. -/
def containsWord (w s : Str) : Bool := containsWordFrom w none s

/-- The `invalid_email_patterns` of ValidationPatterns (utils/patterns.py
lines 178-184): consecutive dots, leading/trailing dot (Python `$`
semantics), dot adjacent to `@`, and `@.*@` - whose unescaped `.` does not
cross newlines, so it fires exactly when some line holds two `@`s. -/
def emailInvalidChecks : List (Str → Bool) :=
  [ fun e => hasPair '.' '.' e
  , fun e => e.head? == some '.' || pyEndsChar '.' e
  , fun e => hasPair '@' '.' e
  , fun e => hasPair '.' '@' e
  , fun e => (splitOnChar '\n' e).any (fun line => decide (2 ≤ countChar '@' line)) ]

/-- DataValidator._validate_email (utils/validators.py lines 112-147).  The
optional email-validator library is the oracle `libValidate`, selected by
`useLib` (config.validate_emails and the library being importable); without
it, the anchored-pattern check applies.  The final disposable-domain block
only logs, but raises IndexError (None) when the string has no `@`. -/
def validate_email (useLib : Bool) (libValidate : Str → Option Str) (email : Str) :
    Option Str :=
  if email.isEmpty then none
  else
    if emailInvalidChecks.any (fun chk => chk (toLowerStr (pyStrip email))) then none
    else
      match (if useLib then libValidate (toLowerStr (pyStrip email))
             else if pyAnchoredMatch (toLowerStr (pyStrip email)) then
               some (toLowerStr (pyStrip email))
             else none) with
      | none => none
      | some ve => if countChar '@' ve = 0 then none else some ve

/-- The three `non_name_patterns` of ValidationPatterns (utils/patterns.py
lines 187-191), each a case-insensitive word-boundary alternation. -/
def nonNamePatternWordLists : List (List Str) :=
  [ [ "email".toList, "contact".toList, "info".toList, "admin".toList, "webmaster".toList
    , "support".toList, "sales".toList, "marketing".toList ]
  , [ "lorem".toList, "ipsum".toList, "dolor".toList, "sit".toList, "amet".toList ]
  , [ "click".toList, "here".toList, "more".toList, "read".toList, "view".toList
    , "download".toList ] ]

/-- The gate comparison `valid_chars / len(x) < 0.8`, in exact arithmetic:
with a positive length (the length guards run first) it is equivalent to
5 * valid < 4 * len. -/
def ratioBelowPoint8 (validCount total : Nat) : Bool :=
  decide (5 * validCount < 4 * total)

/-- The name-part capitalization of `_validate_name` (lines 173-184):
apostrophized parts capitalize each side, Mc-names keep the Mc prefix,
everything else is plainly capitalized. -/
def capitalizeNamePart (part : Str) : Str :=
  if part.contains apostropheChar then
    List.intercalate [apostropheChar] ((splitOnChar apostropheChar part).map capitalizePy)
  else if ['m', 'c'].isPrefixOf (toLowerStr part) then
    'M' :: 'c' :: capitalizePy (part.drop 2)
  else capitalizePy part

/-- DataValidator._validate_name (utils/validators.py lines 149-186). -/
def validate_name (name : Str) : Option Str :=
  if name.isEmpty then none
  else
    if decide ((List.intercalate [' '] (pySplitWs name)).length < 2) ||
        decide (100 < (List.intercalate [' '] (pySplitWs name)).length) then none
    else if nonNamePatternWordLists.any (fun ws => ws.any
        (fun w => containsWord w (toLowerStr (List.intercalate [' '] (pySplitWs name))))) then
      none
    else if ratioBelowPoint8
        ((List.intercalate [' '] (pySplitWs name)).filter
          (fun c => isAsciiAlpha c || isPyWhitespace c || c == apostropheChar ||
            c == '-' || c == '.')).length
        (List.intercalate [' '] (pySplitWs name)).length then none
    else
      match (pySplitWs (List.intercalate [' '] (pySplitWs name))).map capitalizeNamePart with
      | [] => none
      | parts => some (List.intercalate [' '] parts)

/-- The title words kept lowercase by `_validate_title` (line 232). -/
def lowercaseTitleWords : List Str :=
  [ "of".toList, "and".toList, "the".toList, "for".toList, "at".toList, "in".toList
  , "on".toList, "to".toList, "a".toList, "an".toList ]

/-- DataValidator._validate_title (utils/validators.py lines 214-242). -/
def validate_title (title : Str) : Option Str :=
  if title.isEmpty then none
  else
    if decide ((List.intercalate [' '] (pySplitWs title)).length < 2) ||
        decide (100 < (List.intercalate [' '] (pySplitWs title)).length) then none
    else if ratioBelowPoint8
        ((List.intercalate [' '] (pySplitWs title)).filter
          (fun c => isAsciiAlphaNum c || c == ' ' || c == '-' || c == '&' || c == '/' ||
            c == '(' || c == ')' || c == '.')).length
        (List.intercalate [' '] (pySplitWs title)).length then none
    else
      match pySplitWs (List.intercalate [' '] (pySplitWs title)) with
      | [] => some []
      | w :: ws =>
        some (List.intercalate [' ']
          (capitalizePy w :: ws.map (fun v =>
            if lowercaseTitleWords.contains (toLowerStr v) then toLowerStr v
            else capitalizePy v)))

/-- The company abbreviations kept uppercase by `_validate_company`
(line 261). -/
def knownCompanyAbbreviations : List Str :=
  [ "LLC".toList, "INC".toList, "CORP".toList, "LTD".toList, "CO".toList, "LP".toList
  , "LLP".toList, "PC".toList ]

/-- Python `str.upper()` restricted to ASCII. -/
def toUpperStr (s : Str) : Str := s.map Char.toUpper

/-- DataValidator._validate_company (utils/validators.py lines 244-273).
The abbreviation set holds {LLC, Inc, Corp, Ltd, Co, LP, LLP, PC}, compared
through word.upper(), hence the upper-cased member list here. -/
def validate_company (company : Str) : Option Str :=
  if company.isEmpty then none
  else
    if decide ((List.intercalate [' '] (pySplitWs company)).length < 2) ||
        decide (100 < (List.intercalate [' '] (pySplitWs company)).length) then none
    else if ratioBelowPoint8
        ((List.intercalate [' '] (pySplitWs company)).filter
          (fun c => isAsciiAlphaNum c || c == ' ' || c == '-' || c == '&' || c == '.' ||
            c == ',' || c == '(' || c == ')' || c == apostropheChar || c == '/')).length
        (List.intercalate [' '] (pySplitWs company)).length then none
    else
      some (List.intercalate [' ']
        ((pySplitWs (List.intercalate [' '] (pySplitWs company))).map (fun w =>
          if knownCompanyAbbreviations.contains (toUpperStr w) then toUpperStr w
          else if [ "and".toList, "of".toList, "the".toList, "for".toList ].contains
              (toLowerStr w) then toLowerStr w
          else capitalizePy w)))

/-- DataValidator._calculate_validation_score (lines 275-296), applied to
the truthiness of the gated fields. -/
def calculate_validation_score (hasName hasPhone hasTitle hasCompany : Bool)
    (confidence : Rat) : Rat :=
  min 1
    ((0.3 + (if hasName then (0.2 : Rat) else 0) + (if hasPhone then (0.2 : Rat) else 0) +
        (if hasTitle then (0.15 : Rat) else 0) + (if hasCompany then (0.15 : Rat) else 0)) *
      confidence)

/-- A contact dict as it reaches _validate_single_contact; `none` is an
absent key, `some []` a key holding an empty string. -/
structure RawContact where
  email : Option Str := none
  name : Option Str := none
  phone : Option Str := none
  title : Option Str := none
  company : Option Str := none
  source_url : Option String := none
  extraction_method : Option String := none
  confidence : Option Rat := none
  context : Option Str := none

/-- The validated contact dict; optional fields are present exactly when
set. -/
structure ValidatedContact where
  email : Str
  source_url : String
  extraction_method : String
  confidence : Rat
  name : Option Str
  phone : Option Str
  title : Option Str
  company : Option Str
  validation_score : Rat
  context : Option Str

/-- Keep a gate result only when truthy, the `if validated_x:` guards of
lines 82-100. -/
def gateTruthy : Option Str → Option Str
  | some v => if v.isEmpty then none else some v
  | none => none

/-- A raw value the item-copy loop would take: present and truthy. -/
def truthyRaw : Option Str → Option Str
  | some v => if v.isEmpty then none else some v
  | none => none

/-- DataValidator._validate_single_contact (utils/validators.py lines
61-110).  The phone gate `_validate_phone` is an opaque strict gate here
(parameter `validatePhone`); the library email validator is the oracle of
`validate_email`.  The final items loop (lines 106-108) copies every raw
key that is not already in the validated dict and holds a truthy value -
including name/phone/title/company values that were REJECTED by their
gates. -/
def validate_single_contact (useLib : Bool) (libValidate : Str → Option Str)
    (validatePhone : Str → Option Str) (c : RawContact) : Option ValidatedContact :=
  match c.email with
  | none => none
  | some em =>
    if em.isEmpty then none
    else
      match validate_email useLib libValidate em with
      | none => none
      | some ve =>
        some
          { email := ve
          , source_url := c.source_url.getD ""
          , extraction_method := c.extraction_method.getD "unknown"
          , confidence := c.confidence.getD 0.5
          , name :=
              match gateTruthy (c.name.bind validate_name) with
              | some v => some v
              | none => truthyRaw c.name
          , phone :=
              match gateTruthy (c.phone.bind validatePhone) with
              | some v => some v
              | none => truthyRaw c.phone
          , title :=
              match gateTruthy (c.title.bind validate_title) with
              | some v => some v
              | none => truthyRaw c.title
          , company :=
              match gateTruthy (c.company.bind validate_company) with
              | some v => some v
              | none => truthyRaw c.company
          , validation_score :=
              calculate_validation_score
                (gateTruthy (c.name.bind validate_name)).isSome
                (gateTruthy (c.phone.bind validatePhone)).isSome
                (gateTruthy (c.title.bind validate_title)).isSome
                (gateTruthy (c.company.bind validate_company)).isSome
                (c.confidence.getD 0.5)
          , context := truthyRaw c.context }

example : validate_name ("Jane Doe".toList) = some ("Jane Doe".toList) := by decide

example : validate_email false (fun _ => none) ("John@Example.com ".toList) =
    some ("john@example.com".toList) := by decide

/-- The concrete contact whose name fails the gate: mostly punctuation,
letter ratio 1/7 below the 0.8 bound. -/
def buggyRawContact : RawContact :=
  { email := some ("john@example.com".toList)
  , name := some ("!!! ###".toList)
  , confidence := some 0.9 }

/-- Claim C6, failing-input theorem.  The name "!!! ###" is rejected by
_validate_name, yet the record returned by _validate_single_contact carries
exactly that name: the copy-other-fields loop (lines 106-108) restores any
truthy rejected optional field, because a rejected field's key is absent
from the validated dict.  This holds whatever the phone gate and the email
library oracle would do, since those keys are absent from the input. -/
theorem claim_C6_rejected_field_restored :
    validate_name ("!!! ###".toList) = none ∧
    ∀ (libValidate validatePhone : Str → Option Str),
      (validate_single_contact false libValidate validatePhone buggyRawContact).map
        ValidatedContact.name = some (some ("!!! ###".toList)) := by
  constructor
  · decide
  · intro libValidate validatePhone
    rfl

end EmailExtractor

namespace EmailExtractor

/-- A contact record as seen by deduplicate_contacts: only the email key
and the validation_score are inspected; `name` stands for the record's
remaining payload so that distinct records stay distinguishable.  Scores
are exact rationals (`x.get('validation_score', 0)` is modelled by the
field being always present, as the pipeline always stamps it). -/
structure CRec where
  email : String
  validation_score : Rat
  name : String
deriving Repr, DecidableEq

/-- Stable insertion into a list sorted by descending score: the record is
placed before the first element whose score does not exceed it, so earlier
input comes first among equal scores. -/
def insertByScoreDesc (c : CRec) : List CRec → List CRec
  | [] => [c]
  | d :: ds =>
    if d.validation_score ≤ c.validation_score then c :: d :: ds
    else d :: insertByScoreDesc c ds

/-- Python `sorted(contacts, key=lambda x: x.get('validation_score', 0),
reverse=True)`: the unique stable descending reordering, realized as
insertion sort. -/
def sortByScoreDesc : List CRec → List CRec
  | [] => []
  | c :: cs => insertByScoreDesc c (sortByScoreDesc cs)

/-- The loop of deduplicate_contacts (utils/validators.py lines 306-310)
over the sorted list: keep the first record of each truthy email. -/
def dedupGo : List CRec → List String → List CRec
  | [], _ => []
  | c :: rest, seen =>
    if c.email ≠ "" ∧ ¬(seen.contains c.email = true) then
      c :: dedupGo rest (c.email :: seen)
    else dedupGo rest seen

/-- DataValidator.deduplicate_contacts (utils/validators.py lines
298-316). -/
def deduplicate_contacts (contacts : List CRec) : List CRec :=
  dedupGo (sortByScoreDesc contacts) []

/-- The record the claim says must be kept for email `e`, folded from the
left with strict-improvement replacement: the first-seen record of maximal
validation_score. -/
def selectGo (e : String) : CRec → List CRec → CRec
  | best, [] => best
  | best, c :: rest =>
    if c.email = e ∧ best.validation_score < c.validation_score then selectGo e c rest
    else selectGo e best rest

/-- The highest-scored, ties-by-first-seen record carrying email `e`, as
the claim describes it; none when no record carries `e`. -/
def selectBest (e : String) : List CRec → Option CRec
  | [] => none
  | c :: rest => if c.email = e then some (selectGo e c rest) else selectBest e rest

lemma selectGo_score_le (e : String) :
    ∀ (l : List CRec) (c : CRec),
      c.validation_score ≤ (selectGo e c l).validation_score := by
  intro l
  induction l with
  | nil => intro c; exact le_refl _
  | cons d rest ih =>
    intro c
    unfold selectGo
    split
    · rename_i h
      exact le_of_lt (lt_of_lt_of_le h.2 (ih d))
    · exact ih c

lemma selectGo_eq (e : String) :
    ∀ (l : List CRec) (c : CRec),
      selectGo e c l =
        match selectBest e l with
        | none => c
        | some b => if c.validation_score < b.validation_score then b else c := by
  intro l
  induction l with
  | nil => intro c; rfl
  | cons d rest ih =>
    intro c
    unfold selectGo selectBest
    by_cases hd : d.email = e
    · by_cases hlt : c.validation_score < d.validation_score
      · rw [if_pos ⟨hd, hlt⟩, if_pos hd]
        rw [ih d]
        cases hsel : selectBest e rest with
        | none =>
          simp only
          rw [if_pos hlt]
        | some b =>
          simp only
          by_cases hdb : d.validation_score < b.validation_score
          · rw [if_pos hdb, if_pos (lt_trans hlt hdb)]
          · rw [if_neg hdb, if_pos hlt]
      · have hcond : ¬(d.email = e ∧ c.validation_score < d.validation_score) := by
          intro hc; exact hlt hc.2
        rw [if_neg hcond, if_pos hd]
        rw [ih c, ih d]
        cases hsel : selectBest e rest with
        | none =>
          simp only
          rw [if_neg hlt]
        | some b =>
          simp only
          by_cases hdb : d.validation_score < b.validation_score
          · rw [if_pos hdb]
          · rw [if_neg hdb]
            have hbc : ¬c.validation_score < b.validation_score := by
              intro h
              exact hlt (lt_of_lt_of_le h (le_of_not_lt hdb))
            rw [if_neg hbc, if_neg hlt]
    · have hcond : ¬(d.email = e ∧ c.validation_score < d.validation_score) := by
        intro hc; exact hd hc.1
      rw [if_neg hcond, if_neg hd]
      exact ih c

lemma mem_insertByScoreDesc {c x : CRec} :
    ∀ {l : List CRec}, x ∈ insertByScoreDesc c l → x = c ∨ x ∈ l := by
  intro l
  induction l with
  | nil => intro h; simp [insertByScoreDesc] at h; exact Or.inl h
  | cons d ds ih =>
    intro h
    unfold insertByScoreDesc at h
    split at h
    · rcases List.mem_cons.mp h with h1 | h1
      · exact Or.inl h1
      · exact Or.inr h1
    · rcases List.mem_cons.mp h with h1 | h1
      · exact Or.inr (by simp [h1])
      · rcases ih h1 with h2 | h2
        · exact Or.inl h2
        · exact Or.inr (List.mem_cons_of_mem d h2)

lemma insertByScoreDesc_pairwise {c : CRec} :
    ∀ {l : List CRec},
      l.Pairwise (fun a b => b.validation_score ≤ a.validation_score) →
      (insertByScoreDesc c l).Pairwise (fun a b => b.validation_score ≤ a.validation_score) := by
  intro l
  induction l with
  | nil => intro _; simp [insertByScoreDesc]
  | cons d ds ih =>
    intro h
    rcases List.pairwise_cons.mp h with ⟨hd, hds⟩
    unfold insertByScoreDesc
    split
    · rename_i hle
      refine List.pairwise_cons.mpr ⟨?_, h⟩
      intro b hb
      rcases List.mem_cons.mp hb with rfl | hb1
      · exact hle
      · exact le_trans (hd b hb1) hle
    · rename_i hgt
      refine List.pairwise_cons.mpr ⟨?_, ih hds⟩
      intro b hb
      rcases mem_insertByScoreDesc hb with rfl | hb1
      · exact le_of_not_le hgt
      · exact hd b hb1

lemma sortByScoreDesc_pairwise :
    ∀ (l : List CRec),
      (sortByScoreDesc l).Pairwise (fun a b => b.validation_score ≤ a.validation_score) := by
  intro l
  induction l with
  | nil => simp [sortByScoreDesc]
  | cons c cs ih => exact insertByScoreDesc_pairwise ih

lemma find?_insertByScoreDesc (e : String) (c : CRec) :
    ∀ (m : List CRec),
      m.Pairwise (fun a b => b.validation_score ≤ a.validation_score) →
      (insertByScoreDesc c m).find? (fun r => r.email == e) =
        match m.find? (fun r => r.email == e) with
        | none => if c.email = e then some c else none
        | some b =>
          if c.email = e then
            (if c.validation_score < b.validation_score then some b else some c)
          else some b := by
  intro m
  induction m with
  | nil =>
    intro _
    unfold insertByScoreDesc
    by_cases hc : c.email = e
    · rw [List.find?_cons_of_pos _ (by simpa using hc)]
      simp [hc]
    · rw [List.find?_cons_of_neg _ (by simpa using hc)]
      simp [hc]
  | cons d ds ih =>
    intro hpw
    rcases List.pairwise_cons.mp hpw with ⟨hd, hds⟩
    unfold insertByScoreDesc
    split
    · rename_i hle
      by_cases hc : c.email = e
      · rw [List.find?_cons_of_pos _ (by simpa using hc)]
        cases hfind : (d :: ds).find? (fun r => r.email == e) with
        | none => simp [hc]
        | some b =>
          have hbmem : b ∈ d :: ds := List.mem_of_find?_eq_some hfind
          have hble : b.validation_score ≤ c.validation_score := by
            rcases List.mem_cons.mp hbmem with rfl | hb1
            · exact hle
            · exact le_trans (hd b hb1) hle
          simp only [hc, if_true]
          rw [if_neg (not_lt.mpr hble)]
      · rw [List.find?_cons_of_neg _ (by simpa using hc)]
        cases hfind : (d :: ds).find? (fun r => r.email == e) with
        | none => simp [hc]
        | some b => simp [hc]
    · rename_i hgt
      by_cases hdE : d.email = e
      · rw [List.find?_cons_of_pos _ (by simpa using hdE)]
        rw [List.find?_cons_of_pos _ (by simpa using hdE)]
        by_cases hc : c.email = e
        · simp only [hc, if_true]
          rw [if_pos (lt_of_not_le hgt)]
        · simp [hc]
      · rw [List.find?_cons_of_neg _ (by simpa using hdE)]
        rw [List.find?_cons_of_neg _ (by simpa using hdE)]
        exact ih hds

lemma find?_sort_eq_selectBest (e : String) :
    ∀ (l : List CRec),
      (sortByScoreDesc l).find? (fun r => r.email == e) = selectBest e l := by
  intro l
  induction l with
  | nil => rfl
  | cons c cs ih =>
    unfold sortByScoreDesc selectBest
    rw [find?_insertByScoreDesc e c (sortByScoreDesc cs) (sortByScoreDesc_pairwise cs), ih]
    cases hsel : selectBest e cs with
    | none =>
      by_cases hc : c.email = e
      · simp only [hc, if_true]
        rw [selectGo_eq e cs c, hsel]
      · simp [hc]
    | some b =>
      by_cases hc : c.email = e
      · simp only [hc, if_true]
        rw [selectGo_eq e cs c, hsel]
        simp only
        by_cases hcb : c.validation_score < b.validation_score
        · rw [if_pos hcb]
          rw [if_pos hcb]
        · rw [if_neg hcb]
          rw [if_neg hcb]
      · simp [hc]

lemma dedupGo_filter (e : String) (he : e ≠ "") :
    ∀ (l : List CRec) (seen : List String),
      (dedupGo l seen).filter (fun c => c.email == e) =
        if seen.contains e then [] else (l.find? (fun c => c.email == e)).toList := by
  intro l
  induction l with
  | nil =>
    intro seen
    by_cases hs : seen.contains e = true
    · simp [dedupGo, hs]
    · simp [dedupGo, hs]
  | cons c rest ih =>
    intro seen
    unfold dedupGo
    split
    · rename_i htake
      rcases htake with ⟨hne, hnotseen⟩
      by_cases hs : seen.contains e = true
      · have hce : c.email ≠ e := by
          intro hcc
          exact hnotseen (hcc ▸ hs)
        rw [List.filter_cons_of_neg (by simpa using hce)]
        rw [ih (c.email :: seen)]
        have hs2 : (c.email :: seen).contains e = true := by
          simp only [List.contains_cons, Bool.or_eq_true]
          exact Or.inr hs
        rw [if_pos hs2, if_pos hs]
      · by_cases hce : c.email = e
        · rw [List.filter_cons_of_pos (by simpa using hce)]
          rw [ih (c.email :: seen)]
          have hs2 : (c.email :: seen).contains e = true := by
            simp [List.contains_cons, hce]
          rw [if_pos hs2, if_neg hs]
          rw [List.find?_cons_of_pos _ (by simpa using hce)]
          rfl
        · rw [List.filter_cons_of_neg (by simpa using hce)]
          rw [ih (c.email :: seen)]
          have hs2 : ¬(c.email :: seen).contains e = true := by
            simp only [List.contains_cons, Bool.or_eq_true]
            rintro (h | h)
            · exact hce (show e = c.email by simpa using h).symm
            · exact hs h
          rw [if_neg hs2, if_neg hs]
          rw [List.find?_cons_of_neg _ (by simpa using hce)]
    · rename_i hskip
      rw [ih seen]
      by_cases hs : seen.contains e = true
      · rw [if_pos hs, if_pos hs]
      · rw [if_neg hs, if_neg hs]
        have hce : c.email ≠ e := by
          intro hcc
          subst hcc
          push_neg at hskip
          rcases Classical.em (c.email = "") with h0 | h0
          · exact he (h0 ▸ rfl)
          · exact hs (hskip h0)
        rw [List.find?_cons_of_neg _ (by simpa using hce)]

/-- Claim C7: deduplicate_contacts keeps, for every non-empty email value,
exactly one record - the one with the highest validation_score among the
records carrying that email, ties broken by first-seen input order.  The
implementation sorts stably by descending score and keeps the first record
per email; the statement equates its per-email output with the fold that
the claim describes. -/
theorem claim_C7_dedup_keeps_best_per_email (contacts : List CRec) (e : String)
    (he : e ≠ "") :
    (deduplicate_contacts contacts).filter (fun c => c.email == e) =
      (selectBest e contacts).toList := by
  unfold deduplicate_contacts
  rw [dedupGo_filter e he (sortByScoreDesc contacts) []]
  rw [if_neg (by simp)]
  rw [find?_sort_eq_selectBest e contacts]

/-- Witness for claim C7: three records share an email (scores 1, 2 and a
later 2) next to an empty-email record; exactly the first score-2 record
survives. -/
theorem claim_C7_witness :
    ("a@b.co" : String) ≠ "" ∧
    (deduplicate_contacts
      [ { email := "a@b.co", validation_score := 1, name := "low" }
      , { email := "a@b.co", validation_score := 2, name := "first-best" }
      , { email := "a@b.co", validation_score := 2, name := "later-tie" }
      , { email := "", validation_score := 5, name := "no-email" } ]).filter
        (fun c => c.email == "a@b.co") =
      (selectBest "a@b.co"
        [ { email := "a@b.co", validation_score := 1, name := "low" }
        , { email := "a@b.co", validation_score := 2, name := "first-best" }
        , { email := "a@b.co", validation_score := 2, name := "later-tie" }
        , { email := "", validation_score := 5, name := "no-email" } ]).toList ∧
    (selectBest "a@b.co"
      [ { email := "a@b.co", validation_score := 1, name := "low" }
      , { email := "a@b.co", validation_score := 2, name := "first-best" }
      , { email := "a@b.co", validation_score := 2, name := "later-tie" }
      , { email := "", validation_score := 5, name := "no-email" } ]) =
      some { email := "a@b.co", validation_score := 2, name := "first-best" } := by
  refine ⟨by decide, claim_C7_dedup_keeps_best_per_email _ _ (by decide), by decide⟩

end EmailExtractor
